import Mathlib

set_option linter.unusedSectionVars false

/-!
Shallow embedding of the goset library (github.com/sfodje/goset).

The Go map underlying every set variant is modelled as an association list
whose first binding for a key is the authoritative one; Go map iteration
order is unspecified, so the list order stands in for one arbitrary but
fixed iteration order.  The three engines model, respectively,
unsafeSimpleSet (unsafe_simple_set.go), unsafePrioritySet (the Go source
embedded in .github/workflows/build.yml) and unsafeResolvingSet
(unnamed/part_001); SetDyn models a Go Set[T] interface value together with
the dynamic type assertions performed by every binary operation, and the
dynSafe constructor models the safeSet read-write-lock wrapper
(safe_resolving_set.go).  Locking itself has no observable effect on the
sequential semantics and is not modelled.
-/

namespace Goset

variable {T U : Type}

/-- Go map read m[k]: the first binding of k, if any. -/
def mapGet [DecidableEq U] : List (U × T) → U → Option T
  | [], _ => none
  | (k2, v2) :: rest, k => if k2 = k then some v2 else mapGet rest k

/-- Go map write m[k] = v: replace the first binding of k, else append. -/
def mapSet [DecidableEq U] : List (U × T) → U → T → List (U × T)
  | [], k, v => [(k, v)]
  | (k2, v2) :: rest, k, v => if k2 = k then (k, v) :: rest else (k2, v2) :: mapSet rest k v

/-- Go delete(m, k): remove every binding of k (Go maps hold at most one). -/
def mapErase [DecidableEq U] : List (U × T) → U → List (U × T)
  | [], _ => []
  | (k2, v2) :: rest, k => if k2 = k then mapErase rest k else (k2, v2) :: mapErase rest k

/-- The keys of an association list, in order. -/
def mapKeys (m : List (U × T)) : List U := m.map Prod.fst

/-- A runtime failure of the Go program. -/
inductive GoPanic : Type where
  | typeMismatch : GoPanic
deriving DecidableEq

/-- Whether a modelled Go call returned normally (true) or panicked (false). -/
def exceptOk {e a : Type} : Except e a → Bool
  | .ok _ => true
  | .error _ => false

/-! ## The simple engine: unsafeSimpleSet, a map from T to an empty struct. -/

structure SimpleSet (T : Type) where
  set : List T

namespace SimpleSet

variable {T : Type} [DecidableEq T]

/-- newUnsafeSimpleSet. -/
def mkEmpty : SimpleSet T := ⟨[]⟩

/-- Len returns len of the underlying map. -/
def Len (s : SimpleSet T) : Nat := s.set.length

/-- The unexported add for one element: the Go map write s[val] = struct\x7b\x7d,
which at the key-set level inserts val iff it is absent. -/
def addOne (s : SimpleSet T) (v : T) : SimpleSet T :=
  if v ∈ s.set then s else ⟨s.set ++ [v]⟩

/-- The unexported add over the whole argument list. -/
def addAll (s : SimpleSet T) (vs : List T) : SimpleSet T := vs.foldl addOne s

/-- Add: records the length before and after add and reports whether it moved. -/
def Add (s : SimpleSet T) (vs : List T) : SimpleSet T × Bool :=
  (s.addAll vs, decide (s.Len ≠ (s.addAll vs).Len))

/-- The unexported contains: key membership in the map. -/
def contains (s : SimpleSet T) (v : T) : Bool := decide (v ∈ s.set)

/-- Contains: false as soon as one argument is not contained. -/
def Contains (s : SimpleSet T) (vs : List T) : Bool := vs.all s.contains

/-- Diff: every element of s not contained in o, Add-ed into a fresh set. -/
def Diff (s o : SimpleSet T) : SimpleSet T :=
  s.set.foldl (fun acc e => if o.contains e then acc else acc.addOne e) mkEmpty

/-- SymmetricDiff: starts from o.Diff(s), then Add-s every element of s not in o. -/
def SymmetricDiff (s o : SimpleSet T) : SimpleSet T :=
  s.set.foldl (fun acc e => if o.contains e then acc else acc.addOne e) (o.Diff s)

/-- Equal: length check, then containment of every element of s in o. -/
def Equal (s o : SimpleSet T) : Bool :=
  if s.Len ≠ o.Len then false else s.set.all o.contains

/-- Intersect: iterates the smaller operand (the receiver on a tie) and keeps
the elements the larger operand contains. -/
def Intersect (s o : SimpleSet T) : SimpleSet T :=
  let smaller := if o.Len < s.Len then o else s
  let larger := if o.Len < s.Len then s else o
  smaller.set.foldl (fun acc e => if larger.contains e then acc.addOne e else acc) mkEmpty

/-- IsSubset: cardinality check, then containment of every element of s in o. -/
def IsSubset (s o : SimpleSet T) : Bool :=
  if s.Len > o.Len then false else s.set.all o.contains

/-- Removal of a single element: Go delete on the element itself. -/
def removeOne (s : SimpleSet T) (v : T) : SimpleSet T :=
  ⟨s.set.filter (fun x => decide (x ≠ v))⟩

/-- Remove: deletes each argument unconditionally. -/
def Remove (s : SimpleSet T) (vs : List T) : SimpleSet T := vs.foldl removeOne s

/-- Pop: takes the first element of the map iteration, Removes it and returns
it with found = true; on an empty set returns the zero value and false. -/
def Pop [Inhabited T] (s : SimpleSet T) : SimpleSet T × T × Bool :=
  match s.set with
  | [] => (s, default, false)
  | e :: _ => (s.Remove [e], e, true)

/-- Union: a fresh set, Add-ing every element of s and then every element of o. -/
def Union (s o : SimpleSet T) : SimpleSet T :=
  ((mkEmpty : SimpleSet T).addAll s.set).addAll o.set

/-- Clone: a fresh set populated by add from every element of s. -/
def Clone (s : SimpleSet T) : SimpleSet T := (mkEmpty : SimpleSet T).addAll s.set

end SimpleSet

/-! ## The priority engine: unsafePrioritySet, keyed by keyGetter, collisions
arbitrated by an optional int-valued comparator. -/

structure PrioritySet (T U : Type) where
  set : List (U × T)
  keyGetter : T → U
  comparator : Option (T → T → Int)

namespace PrioritySet

variable {T U : Type} [DecidableEq U]

/-- newUnsafePrioritySet. -/
def mkEmpty (kg : T → U) (c : Option (T → T → Int)) : PrioritySet T U := ⟨[], kg, c⟩

def Len (s : PrioritySet T U) : Nat := s.set.length

/-- One iteration of Add's loop: store val iff its key is absent, or the key is
present and a comparator exists and ranks val above the found item. -/
def addOne (s : PrioritySet T U) (v : T) : PrioritySet T U × Bool :=
  let key := s.keyGetter v
  match mapGet s.set key, s.comparator with
  | none, _ => ({ s with set := mapSet s.set key v }, true)
  | some item, some c =>
      if c item v > 0 then ({ s with set := mapSet s.set key v }, true) else (s, false)
  | some _, none => (s, false)

/-- Add: processes the arguments left to right, or-ing the per-element flags. -/
def Add (s : PrioritySet T U) (vs : List T) : PrioritySet T U × Bool :=
  vs.foldl (fun acc v => ((acc.1.addOne v).1, acc.2 || (acc.1.addOne v).2)) (s, false)

/-- Add with the returned flag discarded, as the algebra operations use it. -/
def addList (s : PrioritySet T U) (vs : List T) : PrioritySet T U :=
  vs.foldl (fun acc v => (acc.addOne v).1) s

/-- The unexported contains: the key must be present and, when a comparator
exists, the comparator of the stored element against v must return 0. -/
def contains (s : PrioritySet T U) (v : T) : Bool :=
  match mapGet s.set (s.keyGetter v), s.comparator with
  | some _, none => true
  | some e, some c => decide (c e v = 0)
  | none, _ => false

def Contains (s : PrioritySet T U) (vs : List T) : Bool := vs.all s.contains

/-- Diff: every stored element of s that o does not contain, Add-ed into a
fresh set carrying s's policies. -/
def Diff (s o : PrioritySet T U) : PrioritySet T U :=
  s.set.foldl (fun acc p => if o.contains p.2 then acc else (acc.addOne p.2).1)
    (mkEmpty s.keyGetter s.comparator)

/-- SymmetricDiff: starts from o.Diff(s), then Add-s the elements of s that o
does not contain. -/
def SymmetricDiff (s o : PrioritySet T U) : PrioritySet T U :=
  s.set.foldl (fun acc p => if o.contains p.2 then acc else (acc.addOne p.2).1) (o.Diff s)

def Equal (s o : PrioritySet T U) : Bool :=
  if s.Len ≠ o.Len then false else s.set.all (fun p => o.contains p.2)

/-- Intersect: iterates the smaller operand (the receiver on a tie) and Add-s
the elements the larger operand contains, into a fresh set with s's policies. -/
def Intersect (s o : PrioritySet T U) : PrioritySet T U :=
  let smaller := if o.Len < s.Len then o else s
  let larger := if o.Len < s.Len then s else o
  smaller.set.foldl (fun acc p => if larger.contains p.2 then (acc.addOne p.2).1 else acc)
    (mkEmpty s.keyGetter s.comparator)

def IsSubset (s o : PrioritySet T U) : Bool :=
  if s.Len > o.Len then false else s.set.all (fun p => o.contains p.2)

/-- Removal of one element: Go delete of the element's derived key. -/
def removeOne (s : PrioritySet T U) (v : T) : PrioritySet T U :=
  { s with set := mapErase s.set (s.keyGetter v) }

def Remove (s : PrioritySet T U) (vs : List T) : PrioritySet T U := vs.foldl removeOne s

/-- Pop: takes the first stored element of the map iteration, Removes it (by
its derived key) and returns it with found = true. -/
def Pop [Inhabited T] (s : PrioritySet T U) : PrioritySet T U × T × Bool :=
  match s.set with
  | [] => (s, default, false)
  | (_, e) :: _ => (s.Remove [e], e, true)

/-- Union: a fresh set with s's policies, Add-ing every stored element of s
and then every stored element of o. -/
def Union (s o : PrioritySet T U) : PrioritySet T U :=
  addList (addList (mkEmpty s.keyGetter s.comparator) (s.set.map Prod.snd)) (o.set.map Prod.snd)

/-- Clone: a fresh set with s's policies, Add-ing every stored element of s. -/
def Clone (s : PrioritySet T U) : PrioritySet T U :=
  addList (mkEmpty s.keyGetter s.comparator) (s.set.map Prod.snd)

end PrioritySet

/-! ## The resolving engine: unsafeResolvingSet, keyed by keyGetter, collisions
arbitrated by an optional resolver returning (chosen element, replaced flag). -/

structure ResolvingSet (T U : Type) where
  set : List (U × T)
  keyGetter : T → U
  resolver : Option (T → T → T × Bool)

namespace ResolvingSet

variable {T U : Type} [DecidableEq U]

/-- newUnsafeResolvingSet. -/
def mkEmpty (kg : T → U) (r : Option (T → T → T × Bool)) : ResolvingSet T U := ⟨[], kg, r⟩

def Len (s : ResolvingSet T U) : Nat := s.set.length

/-- One iteration of Add's loop: when the key is present and a resolver exists,
the resolver of (found item, val) decides; when it reports true its returned
element is stored.  When the key is absent, val is stored. -/
def addOne (s : ResolvingSet T U) (v : T) : ResolvingSet T U × Bool :=
  let key := s.keyGetter v
  match mapGet s.set key, s.resolver with
  | some found, some r =>
      if (r found v).2 then ({ s with set := mapSet s.set key (r found v).1 }, true)
      else (s, false)
  | some _, none => (s, false)
  | none, _ => ({ s with set := mapSet s.set key v }, true)

/-- Add: processes the arguments left to right, or-ing the per-element flags. -/
def Add (s : ResolvingSet T U) (vs : List T) : ResolvingSet T U × Bool :=
  vs.foldl (fun acc v => ((acc.1.addOne v).1, acc.2 || (acc.1.addOne v).2)) (s, false)

/-- Add with the returned flag discarded, as the algebra operations use it. -/
def addList (s : ResolvingSet T U) (vs : List T) : ResolvingSet T U :=
  vs.foldl (fun acc v => (acc.addOne v).1) s

/-- The unexported contains: key presence only (the payload-aware check through
the resolver is commented out in the source). -/
def contains (s : ResolvingSet T U) (v : T) : Bool :=
  (mapGet s.set (s.keyGetter v)).isSome

def Contains (s : ResolvingSet T U) (vs : List T) : Bool := vs.all s.contains

/-- Diff: every stored element of s that o does not contain, Add-ed into a
fresh set carrying s's policies. -/
def Diff (s o : ResolvingSet T U) : ResolvingSet T U :=
  s.set.foldl (fun acc p => if o.contains p.2 then acc else (acc.addOne p.2).1)
    (mkEmpty s.keyGetter s.resolver)

/-- SymmetricDiff: starts from o.Diff(s), then Add-s the elements of s that o
does not contain. -/
def SymmetricDiff (s o : ResolvingSet T U) : ResolvingSet T U :=
  s.set.foldl (fun acc p => if o.contains p.2 then acc else (acc.addOne p.2).1) (o.Diff s)

def Equal (s o : ResolvingSet T U) : Bool :=
  if s.Len ≠ o.Len then false else s.set.all (fun p => o.contains p.2)

/-- Intersect: iterates the smaller operand (the receiver on a tie) and Add-s
the elements the larger operand contains, into a fresh set with s's policies. -/
def Intersect (s o : ResolvingSet T U) : ResolvingSet T U :=
  let smaller := if o.Len < s.Len then o else s
  let larger := if o.Len < s.Len then s else o
  smaller.set.foldl (fun acc p => if larger.contains p.2 then (acc.addOne p.2).1 else acc)
    (mkEmpty s.keyGetter s.resolver)

def IsSubset (s o : ResolvingSet T U) : Bool :=
  if s.Len > o.Len then false else s.set.all (fun p => o.contains p.2)

/-- Removal of one element: Go delete of the element's derived key. -/
def removeOne (s : ResolvingSet T U) (v : T) : ResolvingSet T U :=
  { s with set := mapErase s.set (s.keyGetter v) }

def Remove (s : ResolvingSet T U) (vs : List T) : ResolvingSet T U := vs.foldl removeOne s

/-- Pop: takes the first stored element of the map iteration, Removes it (by
its derived key) and returns it with found = true. -/
def Pop [Inhabited T] (s : ResolvingSet T U) : ResolvingSet T U × T × Bool :=
  match s.set with
  | [] => (s, default, false)
  | (_, e) :: _ => (s.Remove [e], e, true)

/-- Union: a fresh set with s's policies, Add-ing every stored element of s
and then every stored element of o. -/
def Union (s o : ResolvingSet T U) : ResolvingSet T U :=
  addList (addList (mkEmpty s.keyGetter s.resolver) (s.set.map Prod.snd)) (o.set.map Prod.snd)

/-- Clone: a fresh set with s's policies, Add-ing every stored element of s. -/
def Clone (s : ResolvingSet T U) : ResolvingSet T U :=
  addList (mkEmpty s.keyGetter s.resolver) (s.set.map Prod.snd)

end ResolvingSet

/-! ## Well-formedness: the representation invariant every constructor-built
set enjoys - map keys are pairwise distinct and each stored element derives
exactly the key it is stored under.  A resolver whose returned element derives
a different key can break the second part (see the Pop analysis). -/

/-- Pairwise distinct keys. -/
def KeysNodup (m : List (U × T)) : Prop := (mapKeys m).Nodup

/-- Well-formed priority set. -/
def PrioritySet.Wf (s : PrioritySet T U) : Prop :=
  KeysNodup s.set ∧ ∀ p ∈ s.set, s.keyGetter p.2 = p.1

/-- Well-formed resolving set. -/
def ResolvingSet.Wf (s : ResolvingSet T U) : Prop :=
  KeysNodup s.set ∧ ∀ p ∈ s.set, s.keyGetter p.2 = p.1

/-! ## The dynamic layer: a Go Set[T] interface value and the dynamic type
assertions every binary operation performs.  dynSafe e models a safeSet whose
embedded engine is e (the safeSet wraps a Set[T], so it can itself wrap a
wrapper).  A failed type assertion is the TypeMismatch runtime failure. -/

inductive SetDyn (T U : Type) : Type where
  | dynSimple : SimpleSet T → SetDyn T U
  | dynPriority : PrioritySet T U → SetDyn T U
  | dynResolving : ResolvingSet T U → SetDyn T U
  | dynSafe : SetDyn T U → SetDyn T U

namespace SetDyn

variable {T U : Type} [DecidableEq T] [DecidableEq U]

/-- Len: dispatches through the interface; safeSet delegates to its engine. -/
def dynLen : SetDyn T U → Nat
  | dynSimple a => a.Len
  | dynPriority a => a.Len
  | dynResolving a => a.Len
  | dynSafe a => dynLen a

/-- Whether this interface value is a safeSet wrapper. -/
def isSafe : SetDyn T U → Bool
  | dynSafe _ => true
  | _ => false

/-- Both operands carry the same concrete variant (through safe wrappers). -/
def sameVariant : SetDyn T U → SetDyn T U → Bool
  | dynSimple _, dynSimple _ => true
  | dynPriority _, dynPriority _ => true
  | dynResolving _, dynResolving _ => true
  | dynSafe a, dynSafe b => sameVariant a b
  | _, _ => false

/-- Clone: each engine clones itself; safeSet clones its engine and wraps the
clone in a new safeSet. -/
def dynClone : SetDyn T U → SetDyn T U
  | dynSimple a => dynSimple a.Clone
  | dynPriority a => dynPriority a.Clone
  | dynResolving a => dynResolving a.Clone
  | dynSafe a => dynSafe (dynClone a)

/-- Diff: every receiver asserts the operand down to its own concrete type;
safeSet additionally wraps the engine result in a new safeSet. -/
def dynDiff : SetDyn T U → SetDyn T U → Except GoPanic (SetDyn T U)
  | dynSimple a, dynSimple b => .ok (dynSimple (a.Diff b))
  | dynPriority a, dynPriority b => .ok (dynPriority (a.Diff b))
  | dynResolving a, dynResolving b => .ok (dynResolving (a.Diff b))
  | dynSafe a, dynSafe b => (dynDiff a b).map dynSafe
  | _, _ => .error .typeMismatch

/-- SymmetricDiff: like Diff, the safeSet result is wrapped. -/
def dynSymmetricDiff : SetDyn T U → SetDyn T U → Except GoPanic (SetDyn T U)
  | dynSimple a, dynSimple b => .ok (dynSimple (a.SymmetricDiff b))
  | dynPriority a, dynPriority b => .ok (dynPriority (a.SymmetricDiff b))
  | dynResolving a, dynResolving b => .ok (dynResolving (a.SymmetricDiff b))
  | dynSafe a, dynSafe b => (dynSymmetricDiff a b).map dynSafe
  | _, _ => .error .typeMismatch

/-- Intersect: like Diff, the safeSet result is wrapped. -/
def dynIntersect : SetDyn T U → SetDyn T U → Except GoPanic (SetDyn T U)
  | dynSimple a, dynSimple b => .ok (dynSimple (a.Intersect b))
  | dynPriority a, dynPriority b => .ok (dynPriority (a.Intersect b))
  | dynResolving a, dynResolving b => .ok (dynResolving (a.Intersect b))
  | dynSafe a, dynSafe b => (dynIntersect a b).map dynSafe
  | _, _ => .error .typeMismatch

/-- Union: the engines return a fresh engine; the safeSet method returns the
engine-level union of the two embedded engines WITHOUT wrapping it in a new
safeSet (safe_resolving_set.go line 162 returns s.set.Union(o.set) directly). -/
def dynUnion : SetDyn T U → SetDyn T U → Except GoPanic (SetDyn T U)
  | dynSimple a, dynSimple b => .ok (dynSimple (a.Union b))
  | dynPriority a, dynPriority b => .ok (dynPriority (a.Union b))
  | dynResolving a, dynResolving b => .ok (dynResolving (a.Union b))
  | dynSafe a, dynSafe b => dynUnion a b
  | _, _ => .error .typeMismatch

/-- Equal: every receiver asserts the operand before its length check. -/
def dynEqual : SetDyn T U → SetDyn T U → Except GoPanic Bool
  | dynSimple a, dynSimple b => .ok (a.Equal b)
  | dynPriority a, dynPriority b => .ok (a.Equal b)
  | dynResolving a, dynResolving b => .ok (a.Equal b)
  | dynSafe a, dynSafe b => dynEqual a b
  | _, _ => .error .typeMismatch

/-- IsSubset: every receiver asserts the operand before its length check. -/
def dynIsSubset : SetDyn T U → SetDyn T U → Except GoPanic Bool
  | dynSimple a, dynSimple b => .ok (a.IsSubset b)
  | dynPriority a, dynPriority b => .ok (a.IsSubset b)
  | dynResolving a, dynResolving b => .ok (a.IsSubset b)
  | dynSafe a, dynSafe b => dynIsSubset a b
  | _, _ => .error .typeMismatch

/-- IsSuperset: every variant, safeSet included, is literally
other.IsSubset(s), so the dynamic dispatch lands in the operand's IsSubset. -/
def dynIsSuperset (s other : SetDyn T U) : Except GoPanic Bool :=
  dynIsSubset other s

/-- IsProperSubset: the safeSet receiver asserts the operand first and then
delegates to the engines; an engine receiver evaluates
s.Len() < other.Len() && s.IsSubset(other), whose short-circuit skips the
type assertion whenever the length test already fails. -/
def dynIsProperSubset : SetDyn T U → SetDyn T U → Except GoPanic Bool
  | dynSafe a, dynSafe b => dynIsProperSubset a b
  | dynSafe _, _ => .error .typeMismatch
  | a, b => if dynLen a < dynLen b then dynIsSubset a b else .ok false

/-- IsProperSuperset: the safeSet receiver is other.IsProperSubset(s); an
engine receiver evaluates s.Len() > other.Len() && s.IsSuperset(other) with
the same short-circuit. -/
def dynIsProperSuperset : SetDyn T U → SetDyn T U → Except GoPanic Bool
  | dynSafe a, b => dynIsProperSubset b (dynSafe a)
  | a, b => if dynLen b < dynLen a then dynIsSubset b a else .ok false

/-- When IsProperSubset completes without a TypeMismatch failure: through
matching safe wrappers it recurses; a safe receiver facing a bare engine
asserts first and always fails; a bare-engine receiver only asserts once its
cardinality precondition holds. -/
def properSubsetOk : SetDyn T U → SetDyn T U → Bool
  | dynSafe a, dynSafe b => properSubsetOk a b
  | dynSafe _, _ => false
  | a, b => sameVariant a b || !(decide (dynLen a < dynLen b))

/-- When IsProperSuperset completes without a TypeMismatch failure. -/
def properSupersetOk : SetDyn T U → SetDyn T U → Bool
  | dynSafe a, b => properSubsetOk b (dynSafe a)
  | a, b => sameVariant a b || !(decide (dynLen b < dynLen a))

end SetDyn

/-- Whether a stored element e is accepted by an optional comparator against
an argument v: vacuously when no comparator exists, else the comparator must
return 0.  This is the payload test the priority engine's contains performs. -/
def compMatch {T : Type} (c : Option (T → T → Int)) (e v : T) : Bool :=
  match c with
  | none => true
  | some c => decide (c e v = 0)

/-! ## Concrete instances used by counterexamples and witnesses. -/

/-- The README's comparator over (id, importance) pairs: positive when the
incoming item is more important, 0 on identical items, negative otherwise. -/
def exCmp : (Nat × Nat) → (Nat × Nat) → Int :=
  fun f n => if f.2 < n.2 then 1 else if f = n then 0 else -1

/-- A priority set keyed by the first component, holding the item (1, 1). -/
def exPrioA : PrioritySet (Nat × Nat) Nat := ⟨[(1, (1, 1))], Prod.fst, some exCmp⟩

/-- A priority set keyed by the first component, holding the item (1, 2). -/
def exPrioB : PrioritySet (Nat × Nat) Nat := ⟨[(1, (1, 2))], Prod.fst, some exCmp⟩

/-- A resolver that discards both elements and stores 42. -/
def exResolver : Nat → Nat → Nat × Bool := fun _ _ => (42, true)

/-- The reachable resolving set Add(5); Add(5): the collision stores the
resolver's 42 under key 5, so the stored element no longer derives its key. -/
def exResolvingPop : ResolvingSet Nat Nat :=
  ((ResolvingSet.mkEmpty (fun n : Nat => n) (some exResolver)).Add [5, 5]).1

/-- A resolving engine holding 1 under key 1, identity key extraction. -/
def exResA : ResolvingSet Nat Nat := ⟨[(1, 1)], fun n => n, none⟩

/-- A resolving engine holding 2 under key 2, identity key extraction. -/
def exResB : ResolvingSet Nat Nat := ⟨[(2, 2)], fun n => n, none⟩

/-- A simple engine holding 1. -/
def exSimpleOne : SimpleSet Nat := ⟨[1]⟩

/-- A priority engine holding 1 under key 1, identity key extraction. -/
def exPrioOne : PrioritySet Nat Nat := ⟨[(1, 1)], fun n => n, none⟩

/-! ## Helper lemmas about the association-list map model. -/

section MapLemmas

variable {T U : Type} [DecidableEq U]

theorem mapGet_mapSet_self (m : List (U × T)) (k : U) (v : T) :
    mapGet (mapSet m k v) k = some v := by
  induction m with
  | nil => simp [mapGet, mapSet]
  | cons p rest ih =>
    obtain ⟨k2, v2⟩ := p
    by_cases h : k2 = k <;> simp [mapGet, mapSet, h, ih]

theorem mapGet_mapSet_ne (m : List (U × T)) {k k2 : U} (v : T) (h : k2 ≠ k) :
    mapGet (mapSet m k v) k2 = mapGet m k2 := by
  have h2 : ¬ (k = k2) := fun e => h e.symm
  induction m with
  | nil => simp [mapGet, mapSet, h2]
  | cons p rest ih =>
    obtain ⟨k3, v3⟩ := p
    by_cases h3 : k3 = k
    · subst h3
      simp [mapGet, mapSet, h2]
    · by_cases h4 : k3 = k2 <;> simp [mapGet, mapSet, h3, h4, h, ih]

theorem mapSet_of_get_none {m : List (U × T)} {k : U} (v : T) (h : mapGet m k = none) :
    mapSet m k v = m ++ [(k, v)] := by
  induction m with
  | nil => simp [mapSet]
  | cons p rest ih =>
    obtain ⟨k2, v2⟩ := p
    by_cases h2 : k2 = k
    · simp [mapGet, h2] at h
    · simp [mapGet, h2] at h
      simp [mapSet, h2, ih h]

theorem mapGet_append (m1 m2 : List (U × T)) (k : U) :
    mapGet (m1 ++ m2) k =
      match mapGet m1 k with
      | some v => some v
      | none => mapGet m2 k := by
  induction m1 with
  | nil => simp [mapGet]
  | cons p rest ih =>
    obtain ⟨k2, v2⟩ := p
    by_cases h : k2 = k <;> simp [mapGet, h, ih]

theorem mapGet_eq_none_iff (m : List (U × T)) (k : U) :
    mapGet m k = none ↔ k ∉ mapKeys m := by
  induction m with
  | nil => simp [mapGet, mapKeys]
  | cons p rest ih =>
    obtain ⟨k2, v2⟩ := p
    have hm : mapKeys ((k2, v2) :: rest) = k2 :: mapKeys rest := rfl
    rw [hm]
    by_cases h : k2 = k
    · subst h
      simp [mapGet]
    · rw [List.mem_cons, not_or]
      simp only [mapGet, if_neg h]
      rw [ih]
      constructor
      · intro hk
        exact ⟨fun e => h e.symm, hk⟩
      · intro hk
        exact hk.2

theorem mapGet_isSome_iff (m : List (U × T)) (k : U) :
    (mapGet m k).isSome = true ↔ k ∈ mapKeys m := by
  rw [Option.isSome_iff_ne_none]
  constructor
  · intro h
    by_contra hk
    exact h ((mapGet_eq_none_iff m k).mpr hk)
  · intro h hn
    exact ((mapGet_eq_none_iff m k).mp hn) h

theorem mapGet_mapErase_self (m : List (U × T)) (k : U) :
    mapGet (mapErase m k) k = none := by
  induction m with
  | nil => simp [mapGet, mapErase]
  | cons p rest ih =>
    obtain ⟨k3, v3⟩ := p
    by_cases h3 : k3 = k <;> simp [mapGet, mapErase, h3, ih]

theorem mapGet_mapErase_ne (m : List (U × T)) {k k2 : U} (h : k2 ≠ k) :
    mapGet (mapErase m k) k2 = mapGet m k2 := by
  induction m with
  | nil => simp [mapErase]
  | cons p rest ih =>
    obtain ⟨k3, v3⟩ := p
    by_cases h3 : k3 = k
    · subst h3
      have : ¬ (k3 = k2) := fun e => h (e.symm)
      simp [mapErase, mapGet, this, ih]
    · by_cases h2 : k3 = k2 <;> simp [mapErase, mapGet, h3, h2, h, ih]

theorem mapErase_of_not_mem {m : List (U × T)} {k : U} (h : k ∉ mapKeys m) :
    mapErase m k = m := by
  induction m with
  | nil => simp [mapErase]
  | cons p rest ih =>
    obtain ⟨k2, v2⟩ := p
    have hm : mapKeys ((k2, v2) :: rest) = k2 :: mapKeys rest := rfl
    rw [hm, List.mem_cons, not_or] at h
    have h1 : ¬ (k2 = k) := fun e => h.1 e.symm
    simp [mapErase, h1, ih h.2]

theorem mapKeys_append (m1 m2 : List (U × T)) :
    mapKeys (m1 ++ m2) = mapKeys m1 ++ mapKeys m2 := by
  simp [mapKeys]

theorem mapKeys_filter_sublist (m : List (U × T)) (C : U × T → Bool) :
    (mapKeys (m.filter C)).Sublist (mapKeys m) :=
  (List.filter_sublist m).map Prod.fst

theorem keysNodup_iff_pairwise (m : List (U × T)) :
    KeysNodup m ↔ m.Pairwise (fun p q => p.1 ≠ q.1) := by
  unfold KeysNodup mapKeys
  exact List.pairwise_map

theorem keysNodup_cons_iff (p : U × T) (rest : List (U × T)) :
    KeysNodup (p :: rest) ↔ p.1 ∉ mapKeys rest ∧ KeysNodup rest := by
  unfold KeysNodup
  rw [show mapKeys (p :: rest) = p.1 :: mapKeys rest from rfl, List.nodup_cons]

theorem mapGet_filter {m : List (U × T)} (hn : KeysNodup m) (C : U × T → Bool) (k : U) :
    mapGet (m.filter C) k =
      match mapGet m k with
      | some v => if C (k, v) then some v else none
      | none => none := by
  induction m with
  | nil => simp [mapGet]
  | cons p rest ih =>
    obtain ⟨k2, v2⟩ := p
    obtain ⟨hk, hn2⟩ := (keysNodup_cons_iff (k2, v2) rest).mp hn
    by_cases h : k2 = k
    · subst h
      have hrest : mapGet (rest.filter C) k2 = none := by
        rw [mapGet_eq_none_iff]
        intro hmem
        exact hk ((mapKeys_filter_sublist rest C).subset hmem)
      by_cases hc : C (k2, v2) = true <;> simp [List.filter_cons, hc, mapGet, hrest]
    · by_cases hc : C (k2, v2) = true <;> simp [List.filter_cons, hc, mapGet, h, ih hn2]

end MapLemmas

/-! ## Generic fold bridges: a conditional fold is a fold over a filter. -/

theorem foldl_if_filter {A S : Type} (C : A → Bool) (step : S → A → S) :
    ∀ (l : List A) (init : S),
      l.foldl (fun acc p => if C p then step acc p else acc) init
        = (l.filter C).foldl step init := by
  intro l
  induction l with
  | nil => intro init; rfl
  | cons a l ih =>
    intro init
    by_cases hc : C a = true <;> simp [List.filter_cons, hc, List.foldl_cons, ih]

theorem foldl_if_not_filter {A S : Type} (C : A → Bool) (step : S → A → S) :
    ∀ (l : List A) (init : S),
      l.foldl (fun acc p => if C p then acc else step acc p) init
        = (l.filter (fun p => !(C p))).foldl step init := by
  intro l
  induction l with
  | nil => intro init; rfl
  | cons a l ih =>
    intro init
    by_cases hc : C a = true <;> simp [List.filter_cons, hc, List.foldl_cons, ih]

/-! ## Build lemmas for the resolving engine. -/

namespace ResolvingSet

variable {T U : Type} [DecidableEq U]

theorem addOne_fields (s : ResolvingSet T U) (v : T) :
    (s.addOne v).1.keyGetter = s.keyGetter ∧ (s.addOne v).1.resolver = s.resolver := by
  simp only [addOne]
  rcases hg : mapGet s.set (s.keyGetter v) with _ | found
  · simp [hg]
  · rcases hr : s.resolver with _ | r
    · simp [hg, hr]
    · simp only [hg, hr]
      by_cases hb : (r found v).2 = true <;> simp [hb, hr]

theorem addOne_of_get_none {s : ResolvingSet T U} {v : T}
    (h : mapGet s.set (s.keyGetter v) = none) :
    s.addOne v = ({ s with set := s.set ++ [(s.keyGetter v, v)] }, true) := by
  have h2 := mapSet_of_get_none (m := s.set) (k := s.keyGetter v) v h
  simp only [addOne, h, h2]

theorem addList_fresh {vs : List T} :
    ∀ (s : ResolvingSet T U),
      (∀ v ∈ vs, mapGet s.set (s.keyGetter v) = none) →
      vs.Pairwise (fun a b => s.keyGetter a ≠ s.keyGetter b) →
      (addList s vs).set = s.set ++ vs.map (fun v => (s.keyGetter v, v)) ∧
        (addList s vs).keyGetter = s.keyGetter ∧ (addList s vs).resolver = s.resolver := by
  induction vs with
  | nil => intro s _ _; simp [addList]
  | cons v vs ih =>
    intro s hfresh hpw
    have hv : mapGet s.set (s.keyGetter v) = none := hfresh v (List.mem_cons_self v vs)
    have hstep : (s.addOne v).1 = { s with set := s.set ++ [(s.keyGetter v, v)] } := by
      rw [addOne_of_get_none hv]
    have hal : addList s (v :: vs) = addList (s.addOne v).1 vs := by
      simp [addList, List.foldl_cons]
    rw [hal, hstep]
    have hpw2 : vs.Pairwise (fun a b => s.keyGetter a ≠ s.keyGetter b) :=
      (List.pairwise_cons.mp hpw).2
    have hhead : ∀ w ∈ vs, s.keyGetter v ≠ s.keyGetter w :=
      (List.pairwise_cons.mp hpw).1
    have hfresh2 : ∀ w ∈ vs,
        mapGet (s.set ++ [(s.keyGetter v, v)]) (s.keyGetter w) = none := by
      intro w hw
      rw [mapGet_append, hfresh w (List.mem_cons_of_mem v hw)]
      simp [mapGet, hhead w hw]
    obtain ⟨h1, h2, h3⟩ := ih { s with set := s.set ++ [(s.keyGetter v, v)] } hfresh2 hpw2
    refine ⟨?_, h2, h3⟩
    rw [h1]
    simp [List.append_assoc]

theorem wf_pairs_pairwise {s : ResolvingSet T U} (hw : s.Wf) :
    (s.set.map Prod.snd).Pairwise (fun a b => s.keyGetter a ≠ s.keyGetter b) := by
  rw [List.pairwise_map]
  have hp := (keysNodup_iff_pairwise s.set).mp hw.1
  exact hp.imp_of_mem (fun ha hb hne => by
    rw [hw.2 _ ha, hw.2 _ hb]
    exact hne)

theorem buildFrom_wf {m : List (U × T)} (kg : T → U) (r : Option (T → T → T × Bool))
    (hn : KeysNodup m) (hw : ∀ p ∈ m, kg p.2 = p.1) :
    (addList (mkEmpty kg r) (m.map Prod.snd)).set = m ∧
      (addList (mkEmpty kg r) (m.map Prod.snd)).keyGetter = kg ∧
      (addList (mkEmpty kg r) (m.map Prod.snd)).resolver = r := by
  have hfresh : ∀ v ∈ m.map Prod.snd, mapGet ([] : List (U × T)) (kg v) = none := by
    intro v _; rfl
  have hpw : (m.map Prod.snd).Pairwise (fun a b => kg a ≠ kg b) := by
    rw [List.pairwise_map]
    have hp := (keysNodup_iff_pairwise m).mp hn
    exact hp.imp_of_mem (fun ha hb hne => by
      rw [hw _ ha, hw _ hb]
      exact hne)
  obtain ⟨h1, h2, h3⟩ := addList_fresh (mkEmpty kg r) hfresh hpw
  refine ⟨?_, h2, h3⟩
  rw [h1]
  show [] ++ (m.map Prod.snd).map (fun v => (kg v, v)) = m
  rw [List.nil_append, List.map_map]
  have : ∀ p ∈ m, ((fun v => (kg v, v)) ∘ Prod.snd) p = p := by
    intro p hp
    show (kg p.2, p.2) = p
    rw [hw p hp]
  calc m.map ((fun v => (kg v, v)) ∘ Prod.snd) = m.map id := List.map_congr_left this
    _ = m := List.map_id m

theorem foldl_addOne_map_snd (l : List (U × T)) (init : ResolvingSet T U) :
    l.foldl (fun acc p => (acc.addOne p.2).1) init = addList init (l.map Prod.snd) := by
  rw [addList, List.foldl_map]

end ResolvingSet

/-! ## A few more association-list helpers shared by the engines. -/

section MapLemmas2

variable {T U : Type} [DecidableEq U]

theorem mapGet_mem {m : List (U × T)} {k : U} {v : T} (h : mapGet m k = some v) :
    (k, v) ∈ m := by
  induction m with
  | nil => simp [mapGet] at h
  | cons p rest ih =>
    obtain ⟨k2, v2⟩ := p
    by_cases h2 : k2 = k
    · subst h2
      simp [mapGet] at h
      simp [h]
    · simp [mapGet, h2] at h
      exact List.mem_cons_of_mem _ (ih h)

theorem keysNodup_filter (m : List (U × T)) (C : U × T → Bool) (hn : KeysNodup m) :
    KeysNodup (m.filter C) :=
  List.Nodup.sublist (mapKeys_filter_sublist m C) hn

theorem map_pair_eq_self {m : List (U × T)} (kg : T → U) (hw : ∀ p ∈ m, kg p.2 = p.1) :
    (m.map Prod.snd).map (fun v => (kg v, v)) = m := by
  rw [List.map_map]
  have h : ∀ p ∈ m, ((fun v => (kg v, v)) ∘ Prod.snd) p = p := by
    intro p hp
    show (kg p.2, p.2) = p
    rw [hw p hp]
  calc m.map ((fun v => (kg v, v)) ∘ Prod.snd) = m.map id := List.map_congr_left h
    _ = m := List.map_id m

theorem pairs_pairwise_of_nodup {m : List (U × T)} (kg : T → U) (hn : KeysNodup m)
    (hw : ∀ p ∈ m, kg p.2 = p.1) :
    (m.map Prod.snd).Pairwise (fun a b => kg a ≠ kg b) := by
  rw [List.pairwise_map]
  have hp := (keysNodup_iff_pairwise m).mp hn
  exact hp.imp_of_mem (fun ha hb hne => by
    rw [hw _ ha, hw _ hb]
    exact hne)

theorem mem_mapKeys_of_mem {m : List (U × T)} {p : U × T} (h : p ∈ m) : p.1 ∈ mapKeys m :=
  List.mem_map_of_mem Prod.fst h

end MapLemmas2

/-! ## Operation-level characterizations for the resolving engine. -/

namespace ResolvingSet

variable {T U : Type} [DecidableEq U]

theorem wf_get {s : ResolvingSet T U} (hw : s.Wf) {k : U} {v : T}
    (h : mapGet s.set k = some v) : s.keyGetter v = k :=
  hw.2 (k, v) (mapGet_mem h)

theorem Diff_parts (s o : ResolvingSet T U) (hw : s.Wf) :
    (s.Diff o).set = s.set.filter (fun p => !(o.contains p.2)) ∧
      (s.Diff o).keyGetter = s.keyGetter ∧ (s.Diff o).resolver = s.resolver := by
  unfold Diff
  rw [foldl_if_not_filter (fun p => o.contains p.2) (fun acc p => (acc.addOne p.2).1) s.set
    (mkEmpty s.keyGetter s.resolver)]
  rw [foldl_addOne_map_snd]
  exact buildFrom_wf s.keyGetter s.resolver
    (keysNodup_filter s.set _ hw.1)
    (fun p hp => hw.2 p (List.mem_of_mem_filter hp))

theorem Wf_Diff (s o : ResolvingSet T U) (hw : s.Wf) : (s.Diff o).Wf := by
  obtain ⟨h1, h2, _⟩ := Diff_parts s o hw
  constructor
  · rw [h1]
    exact keysNodup_filter s.set _ hw.1
  · intro p hp
    rw [h1] at hp
    rw [h2]
    exact hw.2 p (List.mem_of_mem_filter hp)

theorem contains_eq_of_wf {s o : ResolvingSet T U} (hw : s.Wf)
    (hkg : s.keyGetter = o.keyGetter) {p : U × T} (hp : p ∈ s.set) :
    o.contains p.2 = (mapGet o.set p.1).isSome := by
  unfold contains
  rw [← hkg, hw.2 p hp]

theorem SymmetricDiff_parts (s o : ResolvingSet T U) (hws : s.Wf) (hwo : o.Wf)
    (hkg : s.keyGetter = o.keyGetter) :
    (s.SymmetricDiff o).set =
        o.set.filter (fun p => !(s.contains p.2)) ++ s.set.filter (fun p => !(o.contains p.2)) ∧
      (s.SymmetricDiff o).keyGetter = o.keyGetter ∧
      (s.SymmetricDiff o).resolver = o.resolver := by
  unfold SymmetricDiff
  rw [foldl_if_not_filter (fun p => o.contains p.2) (fun acc p => (acc.addOne p.2).1) s.set
    (o.Diff s)]
  rw [foldl_addOne_map_snd]
  obtain ⟨hd1, hd2, hd3⟩ := Diff_parts o s hwo
  have hfilter_mem : ∀ p ∈ s.set.filter (fun p => !(o.contains p.2)),
      p ∈ s.set ∧ mapGet o.set p.1 = none := by
    intro p hp
    have hmem := List.mem_of_mem_filter hp
    have hcond := List.of_mem_filter hp
    refine ⟨hmem, ?_⟩
    rw [contains_eq_of_wf hws hkg hmem] at hcond
    rcases hget : mapGet o.set p.1 with _ | w
    · rfl
    · rw [hget] at hcond
      simp at hcond
  have hfresh : ∀ v ∈ (s.set.filter (fun p => !(o.contains p.2))).map Prod.snd,
      mapGet (o.Diff s).set ((o.Diff s).keyGetter v) = none := by
    intro v hv
    obtain ⟨p, hp, hpv⟩ := List.mem_map.mp hv
    obtain ⟨hmem, hget⟩ := hfilter_mem p hp
    have hkv : (o.Diff s).keyGetter v = p.1 := by
      rw [hd2, ← hpv, ← hkg]
      exact hws.2 p hmem
    rw [hkv, hd1, mapGet_eq_none_iff]
    intro hin
    have : p.1 ∈ mapKeys o.set := (mapKeys_filter_sublist o.set _).subset hin
    exact ((mapGet_eq_none_iff o.set p.1).mp hget) this
  have hpw : ((s.set.filter (fun p => !(o.contains p.2))).map Prod.snd).Pairwise
      (fun a b => (o.Diff s).keyGetter a ≠ (o.Diff s).keyGetter b) := by
    rw [hd2, ← hkg]
    exact pairs_pairwise_of_nodup s.keyGetter (keysNodup_filter s.set _ hws.1)
      (fun p hp => hws.2 p (List.mem_of_mem_filter hp))
  obtain ⟨h1, h2, h3⟩ := addList_fresh (o.Diff s) hfresh hpw
  refine ⟨?_, by rw [h2, hd2], by rw [h3, hd3]⟩
  rw [h1, hd1]
  simp only [hd2]
  rw [map_pair_eq_self o.keyGetter
    (fun p hp => by rw [← hkg]; exact hws.2 p (List.mem_of_mem_filter hp))]

theorem Union_parts (s o : ResolvingSet T U) (hws : s.Wf) (hwo : o.Wf)
    (hkg : s.keyGetter = o.keyGetter)
    (hdisj : ∀ k, k ∈ mapKeys s.set → k ∉ mapKeys o.set) :
    (s.Union o).set = s.set ++ o.set ∧
      (s.Union o).keyGetter = s.keyGetter ∧ (s.Union o).resolver = s.resolver := by
  unfold Union
  obtain ⟨h1, h2, h3⟩ := buildFrom_wf s.keyGetter s.resolver hws.1 hws.2
  have hfresh : ∀ v ∈ o.set.map Prod.snd,
      mapGet (addList (mkEmpty s.keyGetter s.resolver) (s.set.map Prod.snd)).set
        ((addList (mkEmpty s.keyGetter s.resolver) (s.set.map Prod.snd)).keyGetter v) = none := by
    intro v hv
    obtain ⟨p, hp, hpv⟩ := List.mem_map.mp hv
    have hkv : s.keyGetter v = p.1 := by
      rw [← hpv, hkg]
      exact hwo.2 p hp
    rw [h1, h2, hkv, mapGet_eq_none_iff]
    intro hin
    exact hdisj p.1 hin (mem_mapKeys_of_mem hp)
  have hpw : (o.set.map Prod.snd).Pairwise
      (fun a b => (addList (mkEmpty s.keyGetter s.resolver) (s.set.map Prod.snd)).keyGetter a ≠
        (addList (mkEmpty s.keyGetter s.resolver) (s.set.map Prod.snd)).keyGetter b) := by
    rw [h2, hkg]
    exact pairs_pairwise_of_nodup o.keyGetter hwo.1 hwo.2
  obtain ⟨g1, g2, g3⟩ := addList_fresh _ hfresh hpw
  refine ⟨?_, by rw [g2, h2], by rw [g3, h3]⟩
  rw [g1, h1, h2]
  have : (o.set.map Prod.snd).map (fun v => (s.keyGetter v, v)) = o.set := by
    rw [hkg]
    exact map_pair_eq_self o.keyGetter hwo.2
  rw [this]

theorem Intersect_parts (s o : ResolvingSet T U) (hws : s.Wf) (hwo : o.Wf)
    (hkg : s.keyGetter = o.keyGetter) :
    (s.Intersect o).set =
        (if o.Len < s.Len then o.set else s.set).filter
          (fun p => (if o.Len < s.Len then s else o).contains p.2) ∧
      (s.Intersect o).keyGetter = s.keyGetter ∧ (s.Intersect o).resolver = s.resolver := by
  by_cases hlen : o.Len < s.Len
  · have hu : s.Intersect o =
        o.set.foldl (fun acc p => if s.contains p.2 then (acc.addOne p.2).1 else acc)
          (mkEmpty s.keyGetter s.resolver) := by
      simp [Intersect, hlen]
    rw [hu, if_pos hlen, if_pos hlen,
      foldl_if_filter (fun p => s.contains p.2) (fun acc p => (acc.addOne p.2).1) o.set
        (mkEmpty s.keyGetter s.resolver),
      foldl_addOne_map_snd]
    exact buildFrom_wf s.keyGetter s.resolver
      (keysNodup_filter o.set _ hwo.1)
      (fun p hp => by rw [hkg]; exact hwo.2 p (List.mem_of_mem_filter hp))
  · have hu : s.Intersect o =
        s.set.foldl (fun acc p => if o.contains p.2 then (acc.addOne p.2).1 else acc)
          (mkEmpty s.keyGetter s.resolver) := by
      simp [Intersect, hlen]
    rw [hu, if_neg hlen, if_neg hlen,
      foldl_if_filter (fun p => o.contains p.2) (fun acc p => (acc.addOne p.2).1) s.set
        (mkEmpty s.keyGetter s.resolver),
      foldl_addOne_map_snd]
    exact buildFrom_wf s.keyGetter s.resolver
      (keysNodup_filter s.set _ hws.1)
      (fun p hp => hws.2 p (List.mem_of_mem_filter hp))

end ResolvingSet

/-! ## Build lemmas for the priority engine. -/

namespace PrioritySet

variable {T U : Type} [DecidableEq U]

theorem addOne_fieldsP (s : PrioritySet T U) (v : T) :
    (s.addOne v).1.keyGetter = s.keyGetter ∧ (s.addOne v).1.comparator = s.comparator := by
  simp only [addOne]
  rcases hg : mapGet s.set (s.keyGetter v) with _ | item
  · simp [hg]
  · rcases hc : s.comparator with _ | c
    · simp [hg, hc]
    · simp only [hg, hc]
      by_cases hb : c item v > 0 <;> simp [hb, hc]

theorem addOne_of_get_noneP {s : PrioritySet T U} {v : T}
    (h : mapGet s.set (s.keyGetter v) = none) :
    s.addOne v = ({ s with set := s.set ++ [(s.keyGetter v, v)] }, true) := by
  have h2 := mapSet_of_get_none (m := s.set) (k := s.keyGetter v) v h
  simp only [addOne, h, h2]

theorem addList_freshP {vs : List T} :
    ∀ (s : PrioritySet T U),
      (∀ v ∈ vs, mapGet s.set (s.keyGetter v) = none) →
      vs.Pairwise (fun a b => s.keyGetter a ≠ s.keyGetter b) →
      (addList s vs).set = s.set ++ vs.map (fun v => (s.keyGetter v, v)) ∧
        (addList s vs).keyGetter = s.keyGetter ∧ (addList s vs).comparator = s.comparator := by
  induction vs with
  | nil => intro s _ _; simp [addList]
  | cons v vs ih =>
    intro s hfresh hpw
    have hv : mapGet s.set (s.keyGetter v) = none := hfresh v (List.mem_cons_self v vs)
    have hstep : (s.addOne v).1 = { s with set := s.set ++ [(s.keyGetter v, v)] } := by
      rw [addOne_of_get_noneP hv]
    have hal : addList s (v :: vs) = addList (s.addOne v).1 vs := by
      simp [addList, List.foldl_cons]
    rw [hal, hstep]
    have hpw2 : vs.Pairwise (fun a b => s.keyGetter a ≠ s.keyGetter b) :=
      (List.pairwise_cons.mp hpw).2
    have hhead : ∀ w ∈ vs, s.keyGetter v ≠ s.keyGetter w :=
      (List.pairwise_cons.mp hpw).1
    have hfresh2 : ∀ w ∈ vs,
        mapGet (s.set ++ [(s.keyGetter v, v)]) (s.keyGetter w) = none := by
      intro w hw
      rw [mapGet_append, hfresh w (List.mem_cons_of_mem v hw)]
      simp [mapGet, hhead w hw]
    obtain ⟨h1, h2, h3⟩ := ih { s with set := s.set ++ [(s.keyGetter v, v)] } hfresh2 hpw2
    refine ⟨?_, h2, h3⟩
    rw [h1]
    simp [List.append_assoc]

theorem buildFrom_wfP {m : List (U × T)} (kg : T → U) (c : Option (T → T → Int))
    (hn : KeysNodup m) (hw : ∀ p ∈ m, kg p.2 = p.1) :
    (addList (mkEmpty kg c) (m.map Prod.snd)).set = m ∧
      (addList (mkEmpty kg c) (m.map Prod.snd)).keyGetter = kg ∧
      (addList (mkEmpty kg c) (m.map Prod.snd)).comparator = c := by
  have hfresh : ∀ v ∈ m.map Prod.snd, mapGet ([] : List (U × T)) (kg v) = none := by
    intro v _; rfl
  have hpw : (m.map Prod.snd).Pairwise (fun a b => kg a ≠ kg b) :=
    pairs_pairwise_of_nodup kg hn hw
  obtain ⟨h1, h2, h3⟩ := addList_freshP (mkEmpty kg c) hfresh hpw
  refine ⟨?_, h2, h3⟩
  rw [h1]
  show [] ++ (m.map Prod.snd).map (fun v => (kg v, v)) = m
  rw [List.nil_append, map_pair_eq_self kg hw]

theorem foldl_addOne_map_sndP (l : List (U × T)) (init : PrioritySet T U) :
    l.foldl (fun acc p => (acc.addOne p.2).1) init = addList init (l.map Prod.snd) := by
  rw [addList, List.foldl_map]

theorem wf_getP {s : PrioritySet T U} (hw : s.Wf) {k : U} {v : T}
    (h : mapGet s.set k = some v) : s.keyGetter v = k :=
  hw.2 (k, v) (mapGet_mem h)

theorem Intersect_partsP (s o : PrioritySet T U) (hws : s.Wf) (hwo : o.Wf)
    (hkg : s.keyGetter = o.keyGetter) :
    (s.Intersect o).set =
        (if o.Len < s.Len then o.set else s.set).filter
          (fun p => (if o.Len < s.Len then s else o).contains p.2) ∧
      (s.Intersect o).keyGetter = s.keyGetter ∧ (s.Intersect o).comparator = s.comparator := by
  by_cases hlen : o.Len < s.Len
  · have hu : s.Intersect o =
        o.set.foldl (fun acc p => if s.contains p.2 then (acc.addOne p.2).1 else acc)
          (mkEmpty s.keyGetter s.comparator) := by
      simp [Intersect, hlen]
    rw [hu, if_pos hlen, if_pos hlen,
      foldl_if_filter (fun p => s.contains p.2) (fun acc p => (acc.addOne p.2).1) o.set
        (mkEmpty s.keyGetter s.comparator),
      foldl_addOne_map_sndP]
    exact buildFrom_wfP s.keyGetter s.comparator
      (keysNodup_filter o.set _ hwo.1)
      (fun p hp => by rw [hkg]; exact hwo.2 p (List.mem_of_mem_filter hp))
  · have hu : s.Intersect o =
        s.set.foldl (fun acc p => if o.contains p.2 then (acc.addOne p.2).1 else acc)
          (mkEmpty s.keyGetter s.comparator) := by
      simp [Intersect, hlen]
    rw [hu, if_neg hlen, if_neg hlen,
      foldl_if_filter (fun p => o.contains p.2) (fun acc p => (acc.addOne p.2).1) s.set
        (mkEmpty s.keyGetter s.comparator),
      foldl_addOne_map_sndP]
    exact buildFrom_wfP s.keyGetter s.comparator
      (keysNodup_filter s.set _ hws.1)
      (fun p hp => hws.2 p (List.mem_of_mem_filter hp))

end PrioritySet

/-! ## Add: loop decomposition and the per-case behaviour of one iteration. -/

namespace ResolvingSet

variable {T U : Type} [DecidableEq U]

theorem Add_run (vs : List T) : ∀ (s : ResolvingSet T U) (b : Bool),
    vs.foldl (fun acc v => ((acc.1.addOne v).1, acc.2 || (acc.1.addOne v).2)) (s, b)
      = ((s.Add vs).1, b || (s.Add vs).2) := by
  induction vs with
  | nil => intro s b; simp [Add]
  | cons v vs ih =>
    intro s b
    show vs.foldl _ ((s.addOne v).1, b || (s.addOne v).2) = _
    rw [ih (s.addOne v).1 (b || (s.addOne v).2)]
    have hA : s.Add (v :: vs)
        = (((s.addOne v).1.Add vs).1, (s.addOne v).2 || ((s.addOne v).1.Add vs).2) := by
      show vs.foldl _ ((s.addOne v).1, false || (s.addOne v).2) = _
      rw [ih (s.addOne v).1 (false || (s.addOne v).2)]
      simp
    rw [hA]
    simp [Bool.or_assoc]

theorem Add_cons (s : ResolvingSet T U) (v : T) (vs : List T) :
    s.Add (v :: vs)
      = (((s.addOne v).1.Add vs).1, (s.addOne v).2 || ((s.addOne v).1.Add vs).2) := by
  show vs.foldl _ ((s.addOne v).1, false || (s.addOne v).2) = _
  rw [Add_run vs (s.addOne v).1 (false || (s.addOne v).2)]
  simp

theorem Add_fst (vs : List T) : ∀ s : ResolvingSet T U, (s.Add vs).1 = addList s vs := by
  induction vs with
  | nil => intro s; rfl
  | cons v vs ih =>
    intro s
    rw [Add_cons, show addList s (v :: vs) = addList (s.addOne v).1 vs from by simp [addList]]
    exact ih (s.addOne v).1

theorem addOne_present_no_resolver {s : ResolvingSet T U} {v e : T}
    (h : mapGet s.set (s.keyGetter v) = some e) (hr : s.resolver = none) :
    s.addOne v = (s, false) := by
  simp only [addOne, h, hr]

theorem addOne_present_replace {s : ResolvingSet T U} {v e : T} {r : T → T → T × Bool}
    (h : mapGet s.set (s.keyGetter v) = some e) (hr : s.resolver = some r)
    (hb : (r e v).2 = true) :
    s.addOne v = ({ s with set := mapSet s.set (s.keyGetter v) (r e v).1 }, true) := by
  simp only [addOne, h, hr, hb, if_true]

theorem addOne_present_keep {s : ResolvingSet T U} {v e : T} {r : T → T → T × Bool}
    (h : mapGet s.set (s.keyGetter v) = some e) (hr : s.resolver = some r)
    (hb : (r e v).2 = false) :
    s.addOne v = (s, false) := by
  simp only [addOne, h, hr, hb]
  simp

theorem mapGet_addList_of_resolver_none :
    ∀ (vs : List T) (s : ResolvingSet T U), s.resolver = none → ∀ k,
      mapGet (addList s vs).set k =
        match mapGet s.set k with
        | some e => some e
        | none => vs.find? (fun v => decide (s.keyGetter v = k)) := by
  intro vs
  induction vs with
  | nil => intro s _ k; cases hg : mapGet s.set k <;> simp [addList, hg]
  | cons v vs ih =>
    intro s hr k
    have hstep : addList s (v :: vs) = addList (s.addOne v).1 vs := by simp [addList]
    rcases hg : mapGet s.set (s.keyGetter v) with _ | found
    · have ha : (s.addOne v).1 = { s with set := s.set ++ [(s.keyGetter v, v)] } := by
        rw [addOne_of_get_none hg]
      rw [hstep, ha, ih { s with set := s.set ++ [(s.keyGetter v, v)] } hr k]
      show (match mapGet (s.set ++ [(s.keyGetter v, v)]) k with
          | some e => some e
          | none => vs.find? (fun w => decide (s.keyGetter w = k))) = _
      rw [mapGet_append]
      by_cases hk : s.keyGetter v = k
      · rw [← hk] at *
        rw [hg]
        simp [mapGet, List.find?_cons, hg]
      · have hone : mapGet [(s.keyGetter v, v)] k = none := by simp [mapGet, hk]
        rw [hone]
        cases hgk : mapGet s.set k <;> simp [List.find?_cons, hk, hgk]
    · have ha : (s.addOne v).1 = s := by rw [addOne_present_no_resolver hg hr]
      rw [hstep, ha, ih s hr k]
      cases hgk : mapGet s.set k
      · have hk : ¬ (s.keyGetter v = k) := by
          intro e
          rw [e, hgk] at hg
          cases hg
        simp [List.find?_cons, hk]
      · simp

end ResolvingSet

namespace PrioritySet

variable {T U : Type} [DecidableEq U]

theorem Add_runP (vs : List T) : ∀ (s : PrioritySet T U) (b : Bool),
    vs.foldl (fun acc v => ((acc.1.addOne v).1, acc.2 || (acc.1.addOne v).2)) (s, b)
      = ((s.Add vs).1, b || (s.Add vs).2) := by
  induction vs with
  | nil => intro s b; simp [Add]
  | cons v vs ih =>
    intro s b
    show vs.foldl _ ((s.addOne v).1, b || (s.addOne v).2) = _
    rw [ih (s.addOne v).1 (b || (s.addOne v).2)]
    have hA : s.Add (v :: vs)
        = (((s.addOne v).1.Add vs).1, (s.addOne v).2 || ((s.addOne v).1.Add vs).2) := by
      show vs.foldl _ ((s.addOne v).1, false || (s.addOne v).2) = _
      rw [ih (s.addOne v).1 (false || (s.addOne v).2)]
      simp
    rw [hA]
    simp [Bool.or_assoc]

theorem Add_consP (s : PrioritySet T U) (v : T) (vs : List T) :
    s.Add (v :: vs)
      = (((s.addOne v).1.Add vs).1, (s.addOne v).2 || ((s.addOne v).1.Add vs).2) := by
  show vs.foldl _ ((s.addOne v).1, false || (s.addOne v).2) = _
  rw [Add_runP vs (s.addOne v).1 (false || (s.addOne v).2)]
  simp

theorem Add_fstP (vs : List T) : ∀ s : PrioritySet T U, (s.Add vs).1 = addList s vs := by
  induction vs with
  | nil => intro s; rfl
  | cons v vs ih =>
    intro s
    rw [Add_consP, show addList s (v :: vs) = addList (s.addOne v).1 vs from by simp [addList]]
    exact ih (s.addOne v).1

theorem addOne_present_no_comparator {s : PrioritySet T U} {v e : T}
    (h : mapGet s.set (s.keyGetter v) = some e) (hc : s.comparator = none) :
    s.addOne v = (s, false) := by
  simp only [addOne, h, hc]

theorem addOne_present_replaceP {s : PrioritySet T U} {v e : T} {c : T → T → Int}
    (h : mapGet s.set (s.keyGetter v) = some e) (hc : s.comparator = some c)
    (hb : c e v > 0) :
    s.addOne v = ({ s with set := mapSet s.set (s.keyGetter v) v }, true) := by
  simp only [addOne, h, hc, if_pos hb]

theorem addOne_present_keepP {s : PrioritySet T U} {v e : T} {c : T → T → Int}
    (h : mapGet s.set (s.keyGetter v) = some e) (hc : s.comparator = some c)
    (hb : ¬ (c e v > 0)) :
    s.addOne v = (s, false) := by
  simp only [addOne, h, hc, if_neg hb]

theorem mapGet_addList_of_comparator_none :
    ∀ (vs : List T) (s : PrioritySet T U), s.comparator = none → ∀ k,
      mapGet (addList s vs).set k =
        match mapGet s.set k with
        | some e => some e
        | none => vs.find? (fun v => decide (s.keyGetter v = k)) := by
  intro vs
  induction vs with
  | nil => intro s _ k; cases hg : mapGet s.set k <;> simp [addList, hg]
  | cons v vs ih =>
    intro s hc k
    have hstep : addList s (v :: vs) = addList (s.addOne v).1 vs := by simp [addList]
    rcases hg : mapGet s.set (s.keyGetter v) with _ | found
    · have ha : (s.addOne v).1 = { s with set := s.set ++ [(s.keyGetter v, v)] } := by
        rw [addOne_of_get_noneP hg]
      rw [hstep, ha, ih { s with set := s.set ++ [(s.keyGetter v, v)] } hc k]
      show (match mapGet (s.set ++ [(s.keyGetter v, v)]) k with
          | some e => some e
          | none => vs.find? (fun w => decide (s.keyGetter w = k))) = _
      rw [mapGet_append]
      by_cases hk : s.keyGetter v = k
      · rw [← hk] at *
        rw [hg]
        simp [mapGet, List.find?_cons, hg]
      · have hone : mapGet [(s.keyGetter v, v)] k = none := by simp [mapGet, hk]
        rw [hone]
        cases hgk : mapGet s.set k <;> simp [List.find?_cons, hk, hgk]
    · have ha : (s.addOne v).1 = s := by rw [addOne_present_no_comparator hg hc]
      rw [hstep, ha, ih s hc k]
      cases hgk : mapGet s.set k
      · have hk : ¬ (s.keyGetter v = k) := by
          intro e
          rw [e, hgk] at hg
          cases hg
        simp [List.find?_cons, hk]
      · simp

end PrioritySet

/-! ## Simple-set lemmas. -/

namespace SimpleSet

variable {T : Type} [DecidableEq T]

theorem addOne_of_mem {s : SimpleSet T} {v : T} (h : v ∈ s.set) : s.addOne v = s :=
  if_pos h

theorem addOne_of_not_mem {s : SimpleSet T} {v : T} (h : v ∉ s.set) :
    s.addOne v = ⟨s.set ++ [v]⟩ :=
  if_neg h

theorem mem_addOne (s : SimpleSet T) (v x : T) :
    x ∈ (s.addOne v).set ↔ x ∈ s.set ∨ x = v := by
  by_cases h : v ∈ s.set
  · rw [addOne_of_mem h]
    constructor
    · exact Or.inl
    · rintro (hx | rfl)
      · exact hx
      · exact h
  · rw [addOne_of_not_mem h]
    show x ∈ s.set ++ [v] ↔ _
    simp

theorem mem_addAll (vs : List T) : ∀ (s : SimpleSet T) (x : T),
    x ∈ (s.addAll vs).set ↔ x ∈ s.set ∨ x ∈ vs := by
  induction vs with
  | nil => intro s x; simp [addAll]
  | cons v vs ih =>
    intro s x
    show x ∈ ((s.addOne v).addAll vs).set ↔ _
    rw [ih (s.addOne v) x, mem_addOne]
    constructor
    · rintro ((hx | rfl) | hx)
      · exact Or.inl hx
      · exact Or.inr (List.mem_cons_self _ _)
      · exact Or.inr (List.mem_cons_of_mem _ hx)
    · rintro (hx | hx)
      · exact Or.inl (Or.inl hx)
      · rcases List.mem_cons.mp hx with rfl | hx
        · exact Or.inl (Or.inr rfl)
        · exact Or.inr hx

theorem len_addAll_ge (vs : List T) : ∀ s : SimpleSet T, s.Len ≤ (s.addAll vs).Len := by
  induction vs with
  | nil => intro s; exact Nat.le_refl _
  | cons v vs ih =>
    intro s
    show s.Len ≤ ((s.addOne v).addAll vs).Len
    refine Nat.le_trans ?_ (ih (s.addOne v))
    by_cases h : v ∈ s.set
    · rw [addOne_of_mem h]
    · rw [addOne_of_not_mem h]
      show s.set.length ≤ (s.set ++ [v]).length
      simp

theorem len_addAll_eq_iff (vs : List T) : ∀ s : SimpleSet T,
    (s.addAll vs).Len = s.Len ↔ ∀ v ∈ vs, v ∈ s.set := by
  induction vs with
  | nil => intro s; simp [addAll]
  | cons v vs ih =>
    intro s
    show ((s.addOne v).addAll vs).Len = s.Len ↔ _
    by_cases h : v ∈ s.set
    · rw [addOne_of_mem h, ih s]
      constructor
      · intro hall w hw
        rcases List.mem_cons.mp hw with rfl | hw
        · exact h
        · exact hall w hw
      · intro hall w hw
        exact hall w (List.mem_cons_of_mem _ hw)
    · rw [addOne_of_not_mem h]
      constructor
      · intro hlen
        exfalso
        have h1 : (⟨s.set ++ [v]⟩ : SimpleSet T).Len ≤ ((⟨s.set ++ [v]⟩ : SimpleSet T).addAll vs).Len :=
          len_addAll_ge vs _
        have h2 : (⟨s.set ++ [v]⟩ : SimpleSet T).Len = s.Len + 1 := by
          show (s.set ++ [v]).length = s.set.length + 1
          simp
        rw [hlen, h2] at h1
        exact Nat.not_succ_le_self s.Len h1
      · intro hall
        exact absurd (hall v (List.mem_cons_self _ _)) h

theorem Add_flag_iff (s : SimpleSet T) (vs : List T) :
    (s.Add vs).2 = true ↔ ∃ v ∈ vs, v ∉ s.set := by
  show decide (s.Len ≠ (s.addAll vs).Len) = true ↔ _
  rw [decide_eq_true_iff]
  constructor
  · intro hne
    by_contra hall
    push_neg at hall
    exact hne (((len_addAll_eq_iff vs s).mpr hall).symm)
  · intro ⟨v, hv, hnv⟩ heq
    have := (len_addAll_eq_iff vs s).mp heq.symm
    exact hnv (this v hv)

theorem contains_iff (s : SimpleSet T) (v : T) : s.contains v = true ↔ v ∈ s.set :=
  decide_eq_true_iff

end SimpleSet

namespace PrioritySet

variable {T U : Type} [DecidableEq U]

theorem contains_iffP (s : PrioritySet T U) (v : T) :
    s.contains v = true ↔
      ∃ e, mapGet s.set (s.keyGetter v) = some e ∧
        ∀ c, s.comparator = some c → c e v = 0 := by
  rcases hg : mapGet s.set (s.keyGetter v) with _ | e
  · simp [contains, hg]
  · rcases hc : s.comparator with _ | c
    · simp [contains, hg, hc]
    · simp [contains, hg, hc, decide_eq_true_iff]

end PrioritySet

namespace ResolvingSet

variable {T U : Type} [DecidableEq U]

theorem addList_append (s : ResolvingSet T U) (l1 l2 : List T) :
    addList (addList s l1) l2 = addList s (l1 ++ l2) := by
  simp [addList, List.foldl_append]

theorem run_calls (css : List (List T)) : ∀ s : ResolvingSet T U,
    css.foldl (fun s vs => (s.Add vs).1) s = addList s css.flatten := by
  induction css with
  | nil => intro s; simp [addList]
  | cons c css ih =>
    intro s
    show css.foldl _ (s.Add c).1 = _
    rw [ih (s.Add c).1, Add_fst, addList_append]
    simp

end ResolvingSet

namespace PrioritySet

variable {T U : Type} [DecidableEq U]

theorem addList_appendP (s : PrioritySet T U) (l1 l2 : List T) :
    addList (addList s l1) l2 = addList s (l1 ++ l2) := by
  simp [addList, List.foldl_append]

theorem run_callsP (css : List (List T)) : ∀ s : PrioritySet T U,
    css.foldl (fun s vs => (s.Add vs).1) s = addList s css.flatten := by
  induction css with
  | nil => intro s; simp [addList]
  | cons c css ih =>
    intro s
    show css.foldl _ (s.Add c).1 = _
    rw [ih (s.Add c).1, Add_fstP, addList_appendP]
    simp

end PrioritySet

namespace SimpleSet

variable {T : Type} [DecidableEq T]

theorem Diff_eq_addAll (s o : SimpleSet T) :
    s.Diff o = addAll mkEmpty (s.set.filter (fun e => !(o.contains e))) := by
  unfold Diff
  rw [foldl_if_not_filter (fun e => o.contains e) (fun acc e => acc.addOne e) s.set mkEmpty]
  rfl

theorem mem_Diff (s o : SimpleSet T) (x : T) :
    x ∈ (s.Diff o).set ↔ x ∈ s.set ∧ x ∉ o.set := by
  rw [Diff_eq_addAll, mem_addAll]
  simp [mkEmpty, List.mem_filter, contains]

theorem mem_SymmetricDiff (s o : SimpleSet T) (x : T) :
    x ∈ (s.SymmetricDiff o).set ↔ (x ∈ o.set ∧ x ∉ s.set) ∨ (x ∈ s.set ∧ x ∉ o.set) := by
  unfold SymmetricDiff
  rw [foldl_if_not_filter (fun e => o.contains e) (fun acc e => acc.addOne e) s.set (o.Diff s)]
  rw [show (s.set.filter (fun e => !(o.contains e))).foldl (fun acc e => acc.addOne e) (o.Diff s)
    = addAll (o.Diff s) (s.set.filter (fun e => !(o.contains e))) from rfl]
  rw [mem_addAll, mem_Diff]
  simp [List.mem_filter, contains]

theorem mem_Union (s o : SimpleSet T) (x : T) :
    x ∈ (s.Union o).set ↔ x ∈ s.set ∨ x ∈ o.set := by
  unfold Union
  rw [mem_addAll, mem_addAll]
  simp [mkEmpty]

theorem mem_Intersect (s o : SimpleSet T) (x : T) :
    x ∈ (s.Intersect o).set ↔ x ∈ s.set ∧ x ∈ o.set := by
  unfold Intersect
  by_cases hlen : o.Len < s.Len
  · simp only [if_pos hlen]
    rw [foldl_if_filter (fun e => s.contains e) (fun acc e => acc.addOne e) o.set mkEmpty]
    rw [show (o.set.filter (fun e => s.contains e)).foldl (fun acc e => acc.addOne e) mkEmpty
      = addAll mkEmpty (o.set.filter (fun e => s.contains e)) from rfl]
    rw [mem_addAll]
    simp only [mkEmpty, List.not_mem_nil, false_or, List.mem_filter, contains,
      decide_eq_true_iff]
    exact And.comm
  · simp only [if_neg hlen]
    rw [foldl_if_filter (fun e => o.contains e) (fun acc e => acc.addOne e) s.set mkEmpty]
    rw [show (s.set.filter (fun e => o.contains e)).foldl (fun acc e => acc.addOne e) mkEmpty
      = addAll mkEmpty (s.set.filter (fun e => o.contains e)) from rfl]
    rw [mem_addAll]
    simp [mkEmpty, List.mem_filter, contains]

end SimpleSet

namespace ResolvingSet

variable {T U : Type} [DecidableEq U]

theorem mapGet_Diff (s o : ResolvingSet T U) (hws : s.Wf)
    (hkg : s.keyGetter = o.keyGetter) (k : U) :
    mapGet (s.Diff o).set k =
      match mapGet s.set k, mapGet o.set k with
      | some e, none => some e
      | _, _ => none := by
  obtain ⟨h1, _, _⟩ := Diff_parts s o hws
  rw [h1, mapGet_filter hws.1 _ k]
  rcases hg : mapGet s.set k with _ | e
  · rcases ho : mapGet o.set k with _ | f <;> rfl
  · have hke : s.keyGetter e = k := wf_get hws hg
    have hco : o.contains e = (mapGet o.set k).isSome := by
      unfold contains
      rw [← hkg, hke]
    rcases ho : mapGet o.set k with _ | f
    · rw [ho] at hco
      simp [hco]
    · rw [ho] at hco
      simp [hco]

theorem mapGet_SymmetricDiff (s o : ResolvingSet T U) (hws : s.Wf) (hwo : o.Wf)
    (hkg : s.keyGetter = o.keyGetter) (k : U) :
    mapGet (s.SymmetricDiff o).set k =
      match mapGet s.set k, mapGet o.set k with
      | some e, none => some e
      | none, some e => some e
      | _, _ => none := by
  obtain ⟨h1, _, _⟩ := SymmetricDiff_parts s o hws hwo hkg
  rw [h1, mapGet_append, mapGet_filter hwo.1 _ k, mapGet_filter hws.1 _ k]
  rcases hg : mapGet s.set k with _ | e <;> rcases ho : mapGet o.set k with _ | f
  · rfl
  · have hkf : o.keyGetter f = k := wf_get hwo ho
    have hcf : s.contains f = (mapGet s.set k).isSome := by
      unfold contains
      rw [hkg, hkf]
    rw [hg] at hcf
    simp [hcf]
  · have hke : s.keyGetter e = k := wf_get hws hg
    have hce : o.contains e = (mapGet o.set k).isSome := by
      unfold contains
      rw [← hkg, hke]
    rw [ho] at hce
    simp [hce]
  · have hkf : o.keyGetter f = k := wf_get hwo ho
    have hcf : s.contains f = (mapGet s.set k).isSome := by
      unfold contains
      rw [hkg, hkf]
    rw [hg] at hcf
    have hke : s.keyGetter e = k := wf_get hws hg
    have hce : o.contains e = (mapGet o.set k).isSome := by
      unfold contains
      rw [← hkg, hke]
    rw [ho] at hce
    simp [hcf, hce]

theorem mapGet_Union_diffs (s o : ResolvingSet T U) (hws : s.Wf) (hwo : o.Wf)
    (hkg : s.keyGetter = o.keyGetter) (k : U) :
    mapGet ((s.Diff o).Union (o.Diff s)).set k =
      match mapGet s.set k, mapGet o.set k with
      | some e, none => some e
      | none, some e => some e
      | _, _ => none := by
  have hw1 : (s.Diff o).Wf := Wf_Diff s o hws
  have hw2 : (o.Diff s).Wf := Wf_Diff o s hwo
  have hkg1 : (s.Diff o).keyGetter = s.keyGetter := (Diff_parts s o hws).2.1
  have hkg2 : (o.Diff s).keyGetter = o.keyGetter := (Diff_parts o s hwo).2.1
  have hkg12 : (s.Diff o).keyGetter = (o.Diff s).keyGetter := by rw [hkg1, hkg2, hkg]
  have hdisj : ∀ k2, k2 ∈ mapKeys (s.Diff o).set → k2 ∉ mapKeys (o.Diff s).set := by
    intro k2 h2 h3
    have hg2 := (mapGet_isSome_iff (s.Diff o).set k2).mpr h2
    have hg3 := (mapGet_isSome_iff (o.Diff s).set k2).mpr h3
    rw [mapGet_Diff s o hws hkg k2] at hg2
    rw [mapGet_Diff o s hwo hkg.symm k2] at hg3
    rcases hs2 : mapGet s.set k2 with _ | e <;> rcases ho2 : mapGet o.set k2 with _ | f <;>
      rw [hs2, ho2] at hg2 hg3 <;> simp at hg2 hg3
  obtain ⟨hu1, _, _⟩ := Union_parts (s.Diff o) (o.Diff s) hw1 hw2 hkg12 hdisj
  rw [hu1, mapGet_append, mapGet_Diff s o hws hkg k, mapGet_Diff o s hwo hkg.symm k]
  rcases hg : mapGet s.set k with _ | e <;> rcases ho : mapGet o.set k with _ | f <;> rfl

end ResolvingSet

namespace PrioritySet

variable {T U : Type} [DecidableEq U]

theorem contains_eq_compMatch (s : PrioritySet T U) (v : T) :
    s.contains v =
      match mapGet s.set (s.keyGetter v) with
      | some f => compMatch s.comparator f v
      | none => false := by
  unfold contains compMatch
  rcases hg : mapGet s.set (s.keyGetter v) with _ | f <;>
    rcases hc : s.comparator with _ | c <;> rfl

end PrioritySet

/-! ## Dynamic-dispatch lemmas. -/

namespace SetDyn

variable {T U : Type} [DecidableEq T] [DecidableEq U]

theorem exceptOk_map_eq {e a b : Type} (f : a → b) (x : Except e a) :
    exceptOk (x.map f) = exceptOk x := by
  cases x <;> rfl

theorem sameVariant_comm (a : SetDyn T U) : ∀ b, sameVariant a b = sameVariant b a := by
  induction a with
  | dynSimple x => intro b; cases b <;> rfl
  | dynPriority x => intro b; cases b <;> rfl
  | dynResolving x => intro b; cases b <;> rfl
  | dynSafe a ih =>
    intro b
    cases b with
    | dynSimple y => rfl
    | dynPriority y => rfl
    | dynResolving y => rfl
    | dynSafe b => exact ih b

theorem dynDiff_ok (a : SetDyn T U) : ∀ b, exceptOk (dynDiff a b) = sameVariant a b := by
  induction a with
  | dynSimple x => intro b; cases b <;> rfl
  | dynPriority x => intro b; cases b <;> rfl
  | dynResolving x => intro b; cases b <;> rfl
  | dynSafe a ih =>
    intro b
    cases b with
    | dynSimple y => rfl
    | dynPriority y => rfl
    | dynResolving y => rfl
    | dynSafe b =>
      show exceptOk ((dynDiff a b).map dynSafe) = sameVariant a b
      rw [exceptOk_map_eq]
      exact ih b

theorem dynSymmetricDiff_ok (a : SetDyn T U) :
    ∀ b, exceptOk (dynSymmetricDiff a b) = sameVariant a b := by
  induction a with
  | dynSimple x => intro b; cases b <;> rfl
  | dynPriority x => intro b; cases b <;> rfl
  | dynResolving x => intro b; cases b <;> rfl
  | dynSafe a ih =>
    intro b
    cases b with
    | dynSimple y => rfl
    | dynPriority y => rfl
    | dynResolving y => rfl
    | dynSafe b =>
      show exceptOk ((dynSymmetricDiff a b).map dynSafe) = sameVariant a b
      rw [exceptOk_map_eq]
      exact ih b

theorem dynIntersect_ok (a : SetDyn T U) :
    ∀ b, exceptOk (dynIntersect a b) = sameVariant a b := by
  induction a with
  | dynSimple x => intro b; cases b <;> rfl
  | dynPriority x => intro b; cases b <;> rfl
  | dynResolving x => intro b; cases b <;> rfl
  | dynSafe a ih =>
    intro b
    cases b with
    | dynSimple y => rfl
    | dynPriority y => rfl
    | dynResolving y => rfl
    | dynSafe b =>
      show exceptOk ((dynIntersect a b).map dynSafe) = sameVariant a b
      rw [exceptOk_map_eq]
      exact ih b

theorem dynUnion_ok (a : SetDyn T U) : ∀ b, exceptOk (dynUnion a b) = sameVariant a b := by
  induction a with
  | dynSimple x => intro b; cases b <;> rfl
  | dynPriority x => intro b; cases b <;> rfl
  | dynResolving x => intro b; cases b <;> rfl
  | dynSafe a ih =>
    intro b
    cases b with
    | dynSimple y => rfl
    | dynPriority y => rfl
    | dynResolving y => rfl
    | dynSafe b => exact ih b

theorem dynEqual_ok (a : SetDyn T U) : ∀ b, exceptOk (dynEqual a b) = sameVariant a b := by
  induction a with
  | dynSimple x => intro b; cases b <;> rfl
  | dynPriority x => intro b; cases b <;> rfl
  | dynResolving x => intro b; cases b <;> rfl
  | dynSafe a ih =>
    intro b
    cases b with
    | dynSimple y => rfl
    | dynPriority y => rfl
    | dynResolving y => rfl
    | dynSafe b => exact ih b

theorem dynIsSubset_ok (a : SetDyn T U) : ∀ b, exceptOk (dynIsSubset a b) = sameVariant a b := by
  induction a with
  | dynSimple x => intro b; cases b <;> rfl
  | dynPriority x => intro b; cases b <;> rfl
  | dynResolving x => intro b; cases b <;> rfl
  | dynSafe a ih =>
    intro b
    cases b with
    | dynSimple y => rfl
    | dynPriority y => rfl
    | dynResolving y => rfl
    | dynSafe b => exact ih b

theorem dynIsSuperset_ok (a b : SetDyn T U) :
    exceptOk (dynIsSuperset a b) = sameVariant a b := by
  show exceptOk (dynIsSubset b a) = _
  rw [dynIsSubset_ok b a, sameVariant_comm b a]

theorem propSub_nonsafe_aux {a b : SetDyn T U}
    (hred : dynIsProperSubset a b
      = if dynLen a < dynLen b then dynIsSubset a b else .ok false)
    (hok : properSubsetOk a b
      = (sameVariant a b || !(decide (dynLen a < dynLen b)))) :
    exceptOk (dynIsProperSubset a b) = properSubsetOk a b := by
  rw [hred, hok]
  by_cases hl : dynLen a < dynLen b
  · rw [if_pos hl, dynIsSubset_ok a b]
    simp [hl]
  · rw [if_neg hl]
    simp [exceptOk, hl]

theorem dynIsProperSubset_ok (a : SetDyn T U) :
    ∀ b, exceptOk (dynIsProperSubset a b) = properSubsetOk a b := by
  induction a with
  | dynSimple x => intro b; exact propSub_nonsafe_aux (by cases b <;> rfl) (by cases b <;> rfl)
  | dynPriority x => intro b; exact propSub_nonsafe_aux (by cases b <;> rfl) (by cases b <;> rfl)
  | dynResolving x => intro b; exact propSub_nonsafe_aux (by cases b <;> rfl) (by cases b <;> rfl)
  | dynSafe a ih =>
    intro b
    cases b with
    | dynSimple y => rfl
    | dynPriority y => rfl
    | dynResolving y => rfl
    | dynSafe b => exact ih b

theorem dynIsProperSuperset_ok (a : SetDyn T U) :
    ∀ b, exceptOk (dynIsProperSuperset a b) = properSupersetOk a b := by
  cases a with
  | dynSimple x =>
    intro b
    have hred : dynIsProperSuperset (dynSimple (U := U) x) b
        = if dynLen b < dynLen (dynSimple (U := U) x) then dynIsSubset b (dynSimple x)
          else .ok false := by cases b <;> rfl
    have hok : properSupersetOk (dynSimple (U := U) x) b
        = (sameVariant (dynSimple (U := U) x) b
            || !(decide (dynLen b < dynLen (dynSimple (U := U) x)))) := by cases b <;> rfl
    rw [hred, hok]
    by_cases hl : dynLen b < dynLen (dynSimple (U := U) x)
    · rw [if_pos hl, dynIsSubset_ok b (dynSimple x), sameVariant_comm b (dynSimple x)]
      simp [hl]
    · rw [if_neg hl]
      simp [exceptOk, hl]
  | dynPriority x =>
    intro b
    have hred : dynIsProperSuperset (dynPriority x) b
        = if dynLen b < dynLen (dynPriority x) then dynIsSubset b (dynPriority x)
          else .ok false := by cases b <;> rfl
    have hok : properSupersetOk (dynPriority x) b
        = (sameVariant (dynPriority x) b
            || !(decide (dynLen b < dynLen (dynPriority x)))) := by cases b <;> rfl
    rw [hred, hok]
    by_cases hl : dynLen b < dynLen (dynPriority x)
    · rw [if_pos hl, dynIsSubset_ok b (dynPriority x), sameVariant_comm b (dynPriority x)]
      simp [hl]
    · rw [if_neg hl]
      simp [exceptOk, hl]
  | dynResolving x =>
    intro b
    have hred : dynIsProperSuperset (dynResolving x) b
        = if dynLen b < dynLen (dynResolving x) then dynIsSubset b (dynResolving x)
          else .ok false := by cases b <;> rfl
    have hok : properSupersetOk (dynResolving x) b
        = (sameVariant (dynResolving x) b
            || !(decide (dynLen b < dynLen (dynResolving x)))) := by cases b <;> rfl
    rw [hred, hok]
    by_cases hl : dynLen b < dynLen (dynResolving x)
    · rw [if_pos hl, dynIsSubset_ok b (dynResolving x), sameVariant_comm b (dynResolving x)]
      simp [hl]
    · rw [if_neg hl]
      simp [exceptOk, hl]
  | dynSafe a =>
    intro b
    show exceptOk (dynIsProperSubset b (dynSafe a)) = properSubsetOk b (dynSafe a)
    exact dynIsProperSubset_ok b (dynSafe a)

end SetDyn

/-! ## The claims. -/

section Claims

variable {T U : Type}

/-- Claim C1 counterexample: for the priority variant the stored payload IS
compared.  The key derived from (1, 2) is present in the set (which stores
(1, 1) under key 1), yet Contains((1, 2)) returns false because the
comparator of stored against argument is 1, not 0. -/
theorem C1_counterexample :
    (mapGet exPrioA.set (exPrioA.keyGetter (1, 2))).isSome = true ∧
      exPrioA.Contains [(1, 2)] = false := by
  exact ⟨rfl, rfl⟩

/-- Claim C1 (amended): Contains of the simple and resolving variants returns
true iff every argument's derived key is present, the stored payload never
being compared; the priority variant additionally requires, for each
argument whose key is present, that the comparator (when one exists) return
0 on (stored element, argument) - so there the payload is compared. -/
theorem C1_contains [DecidableEq T] [DecidableEq U] :
    (∀ (s : SimpleSet T) (vs : List T), s.Contains vs = true ↔ ∀ v ∈ vs, v ∈ s.set) ∧
    (∀ (s : ResolvingSet T U) (vs : List T),
      s.Contains vs = true ↔ ∀ v ∈ vs, (mapGet s.set (s.keyGetter v)).isSome = true) ∧
    (∀ (s : PrioritySet T U) (vs : List T),
      s.Contains vs = true ↔ ∀ v ∈ vs,
        ∃ e, mapGet s.set (s.keyGetter v) = some e ∧
          ∀ c, s.comparator = some c → c e v = 0) := by
  refine ⟨fun s vs => ?_, fun s vs => ?_, fun s vs => ?_⟩
  · rw [SimpleSet.Contains, List.all_eq_true]
    exact forall₂_congr (fun v _ => SimpleSet.contains_iff s v)
  · rw [ResolvingSet.Contains, List.all_eq_true]
    exact Iff.rfl
  · rw [PrioritySet.Contains, List.all_eq_true]
    exact forall₂_congr (fun v _ => PrioritySet.contains_iffP s v)

/-- Claim C1 witness: the amended characterization applied to the simple set
holding 1 and the argument list [1]. -/
theorem C1_contains_witness : (⟨[1]⟩ : SimpleSet Nat).Contains [1] = true :=
  ((C1_contains (T := Nat) (U := Nat)).1 ⟨[1]⟩ [1]).mpr (by decide)

/-- Claim C3 counterexample: two priority sets of equal cardinality where
every key of A is present in B, yet Equal returns false because B's stored
payload (1, 2) does not comparator-match A's element (1, 1). -/
theorem C3_counterexample :
    exPrioA.Len = exPrioB.Len ∧
      (∀ p ∈ exPrioA.set, (mapGet exPrioB.set p.1).isSome = true) ∧
      exPrioA.Equal exPrioB = false := by
  refine ⟨rfl, by decide, rfl⟩

/-- Claim C3 (amended): for the simple and resolving variants Equal is true
iff the cardinalities agree and every element of the receiver has its derived
key present in the other set (payload not compared); for the priority variant
the containment test additionally requires the other set's comparator (when
one exists) to return 0 on (other's stored element, receiver's element). -/
theorem C3_equal [DecidableEq T] [DecidableEq U] :
    (∀ (s o : SimpleSet T),
      s.Equal o = true ↔ s.Len = o.Len ∧ ∀ v ∈ s.set, v ∈ o.set) ∧
    (∀ (s o : ResolvingSet T U),
      s.Equal o = true ↔ s.Len = o.Len ∧
        ∀ p ∈ s.set, (mapGet o.set (o.keyGetter p.2)).isSome = true) ∧
    (∀ (s o : PrioritySet T U),
      s.Equal o = true ↔ s.Len = o.Len ∧
        ∀ p ∈ s.set, ∃ e, mapGet o.set (o.keyGetter p.2) = some e ∧
          ∀ c, o.comparator = some c → c e p.2 = 0) := by
  refine ⟨fun s o => ?_, fun s o => ?_, fun s o => ?_⟩
  · by_cases hl : s.Len = o.Len
    · rw [SimpleSet.Equal, if_neg (by simp [hl]), List.all_eq_true]
      simp only [hl, true_and]
      exact forall₂_congr (fun v _ => SimpleSet.contains_iff o v)
    · rw [SimpleSet.Equal, if_pos hl]
      simp [hl]
  · by_cases hl : s.Len = o.Len
    · rw [ResolvingSet.Equal, if_neg (by simp [hl]), List.all_eq_true]
      simp only [hl, true_and]
      exact Iff.rfl
    · rw [ResolvingSet.Equal, if_pos hl]
      simp [hl]
  · by_cases hl : s.Len = o.Len
    · rw [PrioritySet.Equal, if_neg (by simp [hl]), List.all_eq_true]
      simp only [hl, true_and]
      exact forall₂_congr (fun p _ => PrioritySet.contains_iffP o p.2)
    · rw [PrioritySet.Equal, if_pos hl]
      simp [hl]

/-- Claim C3 witness: the amended characterization applied to two equal
simple sets. -/
theorem C3_equal_witness : (⟨[1, 2]⟩ : SimpleSet Nat).Equal ⟨[2, 1]⟩ = true :=
  ((C3_equal (T := Nat) (U := Nat)).1 ⟨[1, 2]⟩ ⟨[2, 1]⟩).mpr (by decide)

/-- Claim C4: Add processes each element independently, left to right, and
returns true iff at least one element caused an insert (its key was absent at
its turn) or a replacement (key present and the resolution function signalled
replacement); a present key with no resolution function is a no-op.  For the
simple variant (no resolution function) the returned flag is equivalent to
some argument being absent from the original set. -/
theorem C4_add_semantics [DecidableEq T] [DecidableEq U] :
    (∀ (s : SimpleSet T) (vs : List T), (s.Add vs).2 = true ↔ ∃ v ∈ vs, v ∉ s.set) ∧
    (∀ (s : ResolvingSet T U) (v : T) (vs : List T),
      s.Add (v :: vs)
        = (((s.addOne v).1.Add vs).1, (s.addOne v).2 || ((s.addOne v).1.Add vs).2)) ∧
    (∀ (s : PrioritySet T U) (v : T) (vs : List T),
      s.Add (v :: vs)
        = (((s.addOne v).1.Add vs).1, (s.addOne v).2 || ((s.addOne v).1.Add vs).2)) ∧
    (∀ (s : ResolvingSet T U) (v : T), mapGet s.set (s.keyGetter v) = none →
      s.addOne v = ({ s with set := mapSet s.set (s.keyGetter v) v }, true)) ∧
    (∀ (s : ResolvingSet T U) (v e : T), mapGet s.set (s.keyGetter v) = some e →
      s.resolver = none → s.addOne v = (s, false)) ∧
    (∀ (s : ResolvingSet T U) (v e : T) (r : T → T → T × Bool),
      mapGet s.set (s.keyGetter v) = some e → s.resolver = some r →
      (s.addOne v).2 = (r e v).2 ∧ ((r e v).2 = false → (s.addOne v).1 = s)) ∧
    (∀ (s : PrioritySet T U) (v : T), mapGet s.set (s.keyGetter v) = none →
      s.addOne v = ({ s with set := mapSet s.set (s.keyGetter v) v }, true)) ∧
    (∀ (s : PrioritySet T U) (v e : T), mapGet s.set (s.keyGetter v) = some e →
      s.comparator = none → s.addOne v = (s, false)) ∧
    (∀ (s : PrioritySet T U) (v e : T) (c : T → T → Int),
      mapGet s.set (s.keyGetter v) = some e → s.comparator = some c →
      (s.addOne v).2 = decide (c e v > 0) ∧ (¬ (c e v > 0) → (s.addOne v).1 = s)) := by
  refine ⟨SimpleSet.Add_flag_iff, ResolvingSet.Add_cons, PrioritySet.Add_consP,
    ?_, ?_, ?_, ?_, ?_, ?_⟩
  · intro s v h
    simp only [ResolvingSet.addOne, h]
  · intro s v e h hr
    exact ResolvingSet.addOne_present_no_resolver h hr
  · intro s v e r h hr
    constructor
    · by_cases hb : (r e v).2 = true
      · rw [ResolvingSet.addOne_present_replace h hr hb, hb]
      · have hb2 : (r e v).2 = false := by
          rcases Bool.dichotomy (r e v).2 with h2 | h2
          · exact h2
          · exact absurd h2 hb
        rw [ResolvingSet.addOne_present_keep h hr hb2, hb2]
    · intro hb
      rw [ResolvingSet.addOne_present_keep h hr hb]
  · intro s v h
    simp only [PrioritySet.addOne, h]
  · intro s v e h hc
    exact PrioritySet.addOne_present_no_comparator h hc
  · intro s v e c h hc
    constructor
    · by_cases hb : c e v > 0
      · rw [PrioritySet.addOne_present_replaceP h hc hb]
        simp [hb]
      · rw [PrioritySet.addOne_present_keepP h hc hb]
        simp [hb]
    · intro hb
      rw [PrioritySet.addOne_present_keepP h hc hb]

/-- Claim C4 witness: the flag characterization applied to the simple set
holding 1 with arguments [1, 2], and the resolving no-op case at a concrete
collision without a resolver. -/
theorem C4_add_semantics_witness :
    ((⟨[1]⟩ : SimpleSet Nat).Add [1, 2]).2 = true ∧
      (⟨[(1, 5)], fun n => n % 10, none⟩ : ResolvingSet Nat Nat).addOne 11
        = (⟨[(1, 5)], fun n => n % 10, none⟩, false) :=
  ⟨((C4_add_semantics (T := Nat) (U := Nat)).1 ⟨[1]⟩ [1, 2]).mpr (by decide),
    (C4_add_semantics (T := Nat) (U := Nat)).2.2.2.2.1
      ⟨[(1, 5)], fun n => n % 10, none⟩ 11 5 (by decide) rfl⟩

/-- Claim C5: a keyed set built with an absent resolution function is
first-write-wins: after any sequence of Add calls starting from the empty
set, the element stored under each key is the first element ever added whose
derived key is that key. -/
theorem C5_first_write_wins [DecidableEq U] :
    (∀ (kg : T → U) (css : List (List T)) (k : U),
      mapGet ((css.foldl (fun s vs => (s.Add vs).1) (ResolvingSet.mkEmpty kg none)).set) k
        = css.flatten.find? (fun v => decide (kg v = k))) ∧
    (∀ (kg : T → U) (css : List (List T)) (k : U),
      mapGet ((css.foldl (fun s vs => (s.Add vs).1) (PrioritySet.mkEmpty kg none)).set) k
        = css.flatten.find? (fun v => decide (kg v = k))) := by
  constructor
  · intro kg css k
    rw [ResolvingSet.run_calls]
    rw [ResolvingSet.mapGet_addList_of_resolver_none css.flatten (ResolvingSet.mkEmpty kg none) rfl k]
    rfl
  · intro kg css k
    rw [PrioritySet.run_callsP]
    rw [PrioritySet.mapGet_addList_of_comparator_none css.flatten (PrioritySet.mkEmpty kg none) rfl k]
    rfl

/-- Claim C10: on a key collision with a resolver present, the element stored
afterwards is exactly the resolver's first return value when its boolean is
true (stored verbatim, whether or not it equals either input), and when the
boolean is false the mapping is left unchanged and the returned element is
discarded. -/
theorem C10_resolver_verbatim [DecidableEq U] :
    ∀ (s : ResolvingSet T U) (v e : T) (r : T → T → T × Bool),
      mapGet s.set (s.keyGetter v) = some e → s.resolver = some r →
      (((r e v).2 = true →
        (s.addOne v).1.set = mapSet s.set (s.keyGetter v) (r e v).1 ∧
        mapGet (s.addOne v).1.set (s.keyGetter v) = some (r e v).1 ∧
        (s.addOne v).2 = true) ∧
      ((r e v).2 = false → (s.addOne v).1 = s ∧ (s.addOne v).2 = false)) := by
  intro s v e r h hr
  constructor
  · intro hb
    rw [ResolvingSet.addOne_present_replace h hr hb]
    exact ⟨rfl, mapGet_mapSet_self s.set (s.keyGetter v) (r e v).1, rfl⟩
  · intro hb
    rw [ResolvingSet.addOne_present_keep h hr hb]
    exact ⟨rfl, rfl⟩

/-- Claim C10 witness: the resolver that stores 42 applied at the collision
on key 5: the stored element becomes 42, which equals neither input. -/
theorem C10_resolver_verbatim_witness :
    (((ResolvingSet.mkEmpty (fun n : Nat => n) (some exResolver)).Add [5]).1.addOne 5).1.set
        = [(5, 42)] := by
  have h := (C10_resolver_verbatim (T := Nat) (U := Nat)
    ((ResolvingSet.mkEmpty (fun n : Nat => n) (some exResolver)).Add [5]).1 5 5 exResolver
    (by decide) rfl).1 rfl
  rw [h.1]
  decide

/-- Claim C6 counterexample: key 1 exists in both priority sets, yet the
intersection does not contain it - the priority variant's membership test
also compares payloads through the comparator, so "exactly the elements
whose key exists in both" is false for it. -/
theorem C6_counterexample :
    (mapGet exPrioA.set 1).isSome = true ∧ (mapGet exPrioB.set 1).isSome = true ∧
      mapGet (exPrioA.Intersect exPrioB).set 1 = none := by
  decide

/-- Claim C6 (amended): Intersect iterates the smaller operand (the receiver
on a tie of Len) and keeps, for each shared key, the payload stored in that
smaller operand - not a resolved merge.  For the simple variant the result
holds exactly the elements present in both.  For the resolving and priority
variants the same holds provided both operands are well-formed (each stored
element derives the key it is stored under, keys distinct - the invariant
every constructor maintains, breakable only by a key-changing resolver) and
share one key-extraction function; the priority variant further requires,
for a shared key to be kept, that the larger operand's comparator (when
present) return 0 on (larger's stored element, smaller's element). -/
theorem C6_intersect [DecidableEq T] [DecidableEq U] :
    (∀ (s o : SimpleSet T) (x : T),
      x ∈ (s.Intersect o).set ↔ x ∈ s.set ∧ x ∈ o.set) ∧
    (∀ (s o : ResolvingSet T U), s.Wf → o.Wf → s.keyGetter = o.keyGetter → ∀ k,
      mapGet (s.Intersect o).set k =
        match mapGet (if o.Len < s.Len then o else s).set k,
            mapGet (if o.Len < s.Len then s else o).set k with
        | some e, some _ => some e
        | _, _ => none) ∧
    (∀ (s o : PrioritySet T U), s.Wf → o.Wf → s.keyGetter = o.keyGetter → ∀ k,
      mapGet (s.Intersect o).set k =
        match mapGet (if o.Len < s.Len then o else s).set k,
            mapGet (if o.Len < s.Len then s else o).set k with
        | some e, some f =>
            if compMatch (if o.Len < s.Len then s else o).comparator f e then some e
            else none
        | _, _ => none) := by
  refine ⟨SimpleSet.mem_Intersect, fun s o hws hwo hkg k => ?_, fun s o hws hwo hkg k => ?_⟩
  · obtain ⟨h1, _, _⟩ := ResolvingSet.Intersect_parts s o hws hwo hkg
    by_cases hlen : o.Len < s.Len
    · simp only [if_pos hlen] at h1 ⊢
      rw [h1, mapGet_filter hwo.1 _ k]
      rcases hsm : mapGet o.set k with _ | e
      · rcases hlg : mapGet s.set k with _ | f <;> rfl
      · have hke : o.keyGetter e = k := ResolvingSet.wf_get hwo hsm
        have hce : s.contains e = (mapGet s.set k).isSome := by
          unfold ResolvingSet.contains
          rw [hkg, hke]
        rcases hlg : mapGet s.set k with _ | f <;> rw [hlg] at hce <;> simp [hce]
    · simp only [if_neg hlen] at h1 ⊢
      rw [h1, mapGet_filter hws.1 _ k]
      rcases hsm : mapGet s.set k with _ | e
      · rcases hlg : mapGet o.set k with _ | f <;> rfl
      · have hke : s.keyGetter e = k := ResolvingSet.wf_get hws hsm
        have hce : o.contains e = (mapGet o.set k).isSome := by
          unfold ResolvingSet.contains
          rw [← hkg, hke]
        rcases hlg : mapGet o.set k with _ | f <;> rw [hlg] at hce <;> simp [hce]
  · obtain ⟨h1, _, _⟩ := PrioritySet.Intersect_partsP s o hws hwo hkg
    by_cases hlen : o.Len < s.Len
    · simp only [if_pos hlen] at h1 ⊢
      rw [h1, mapGet_filter hwo.1 _ k]
      rcases hsm : mapGet o.set k with _ | e
      · rcases hlg : mapGet s.set k with _ | f <;> rfl
      · have hke : o.keyGetter e = k := PrioritySet.wf_getP hwo hsm
        have hce : s.contains e =
            match mapGet s.set k with
            | some f => compMatch s.comparator f e
            | none => false := by
          rw [PrioritySet.contains_eq_compMatch, hkg, hke]
        rcases hlg : mapGet s.set k with _ | f <;> rw [hlg] at hce <;> simp [hce]
    · simp only [if_neg hlen] at h1 ⊢
      rw [h1, mapGet_filter hws.1 _ k]
      rcases hsm : mapGet s.set k with _ | e
      · rcases hlg : mapGet o.set k with _ | f <;> rfl
      · have hke : s.keyGetter e = k := PrioritySet.wf_getP hws hsm
        have hce : o.contains e =
            match mapGet o.set k with
            | some f => compMatch o.comparator f e
            | none => false := by
          rw [PrioritySet.contains_eq_compMatch, ← hkg, hke]
        rcases hlg : mapGet o.set k with _ | f <;> rw [hlg] at hce <;> simp [hce]

/-- Claim C6 witness: the amended characterization applied to concrete
well-formed resolving sets sharing key 2, whose intersection keeps the
smaller (receiver) side's payload. -/
theorem C6_intersect_witness :
    mapGet ((⟨[(2, 2)], fun n => n % 10, none⟩ : ResolvingSet Nat Nat).Intersect
      ⟨[(2, 12), (3, 13)], fun n => n % 10, none⟩).set 2 = some 2 := by
  have h := (C6_intersect (T := Nat) (U := Nat)).2.1
    ⟨[(2, 2)], fun n => n % 10, none⟩ ⟨[(2, 12), (3, 13)], fun n => n % 10, none⟩
    (by refine ⟨?_, ?_⟩
        · unfold KeysNodup mapKeys
          decide
        · intro p hp
          fin_cases hp <;> rfl)
    (by refine ⟨?_, ?_⟩
        · unfold KeysNodup mapKeys
          decide
        · intro p hp
          fin_cases hp <;> rfl)
    rfl 2
  rw [h]
  decide

/-- Claim C7 counterexample: for two priority sets both holding key 1 with
comparator-distinct payloads, A.Diff(B) and B.Diff(A) share key 1, refuting
"A.Diff(B) and B.Diff(A) have no key in common" for the priority variant. -/
theorem C7_counterexample :
    (mapGet (exPrioA.Diff exPrioB).set 1).isSome = true ∧
      (mapGet (exPrioB.Diff exPrioA).set 1).isSome = true := by
  decide

/-- Claim C7 (amended): for the simple variant, and for well-formed resolving
sets sharing one key extractor, A.Diff(B) and B.Diff(A) have no key in
common, and A.SymmetricDiff(B) holds exactly the elements present by key in
exactly one operand and agrees (as a key to payload mapping) with
A.Diff(B).Union(B.Diff(A)).  The priority variant violates this because its
containment test also compares payloads. -/
theorem C7_diff_symmdiff [DecidableEq T] [DecidableEq U] :
    (∀ (s o : SimpleSet T) (x : T),
      (¬ (x ∈ (s.Diff o).set ∧ x ∈ (o.Diff s).set)) ∧
      (x ∈ (s.SymmetricDiff o).set ↔ (x ∈ s.set ∧ x ∉ o.set) ∨ (x ∈ o.set ∧ x ∉ s.set)) ∧
      (x ∈ (s.SymmetricDiff o).set ↔ x ∈ ((s.Diff o).Union (o.Diff s)).set)) ∧
    (∀ (s o : ResolvingSet T U), s.Wf → o.Wf → s.keyGetter = o.keyGetter → ∀ k,
      (¬ ((mapGet (s.Diff o).set k).isSome = true ∧
          (mapGet (o.Diff s).set k).isSome = true)) ∧
      (mapGet (s.SymmetricDiff o).set k =
        match mapGet s.set k, mapGet o.set k with
        | some e, none => some e
        | none, some e => some e
        | _, _ => none) ∧
      (mapGet (s.SymmetricDiff o).set k = mapGet ((s.Diff o).Union (o.Diff s)).set k)) := by
  constructor
  · intro s o x
    refine ⟨?_, ?_, ?_⟩
    · rintro ⟨h1, h2⟩
      rw [SimpleSet.mem_Diff] at h1 h2
      exact h2.2 h1.1
    · rw [SimpleSet.mem_SymmetricDiff]
      exact Or.comm
    · rw [SimpleSet.mem_SymmetricDiff, SimpleSet.mem_Union, SimpleSet.mem_Diff,
        SimpleSet.mem_Diff]
      exact Or.comm
  · intro s o hws hwo hkg k
    refine ⟨?_, ?_, ?_⟩
    · rintro ⟨h1, h2⟩
      rw [ResolvingSet.mapGet_Diff s o hws hkg k] at h1
      rw [ResolvingSet.mapGet_Diff o s hwo hkg.symm k] at h2
      rcases hg : mapGet s.set k with _ | e <;> rcases ho : mapGet o.set k with _ | f <;>
        rw [hg, ho] at h1 h2 <;> simp at h1 h2
    · exact ResolvingSet.mapGet_SymmetricDiff s o hws hwo hkg k
    · rw [ResolvingSet.mapGet_SymmetricDiff s o hws hwo hkg k,
        ResolvingSet.mapGet_Union_diffs s o hws hwo hkg k]

/-- Claim C7 witness: the symmetric-difference identity applied to concrete
simple sets, matching spec scenario 2 at the element 1. -/
theorem C7_diff_symmdiff_witness :
    1 ∈ ((⟨[1, 2, 3]⟩ : SimpleSet Nat).SymmetricDiff ⟨[2, 3, 4, 5]⟩).set := by
  have h := ((C7_diff_symmdiff (T := Nat) (U := Nat)).1 ⟨[1, 2, 3]⟩ ⟨[2, 3, 4, 5]⟩ 1).2.1
  rw [h]
  decide

/-- Claim C8 counterexample: a reachable resolving-set state (Add(5) twice
with a resolver that stores 42) on which a successful Pop leaves Len
unchanged at 1: Pop removes by the popped element's derived key (42), which
is not the key (5) the element is stored under. -/
theorem C8_counterexample :
    exResolvingPop.Len = 1 ∧ (exResolvingPop.Pop).2.2 = true ∧
      (exResolvingPop.Pop).1.Len = 1 ∧ (exResolvingPop.Pop).2.1 = 42 := by
  decide

/-- Claim C8 (amended): Pop on an empty set returns the zero element with
found = false and leaves the set unchanged; Pop on a non-empty set returns
found = true with a stored element.  Provided the representation is
well-formed - each stored element derives the key it is stored under, always
true for the simple variant and whenever no key-changing resolver has run -
Len decreases by exactly 1 and the popped element's key is absent
afterwards. -/
theorem C8_pop [DecidableEq T] [DecidableEq U] [Inhabited T] :
    (∀ s : SimpleSet T, s.set = [] → s.Pop = (s, default, false)) ∧
    (∀ s : ResolvingSet T U, s.set = [] → s.Pop = (s, default, false)) ∧
    (∀ s : PrioritySet T U, s.set = [] → s.Pop = (s, default, false)) ∧
    (∀ s : SimpleSet T, s.set ≠ [] → s.set.Nodup →
      (s.Pop).2.2 = true ∧ (s.Pop).2.1 ∈ s.set ∧ (s.Pop).1.Len = s.Len - 1 ∧
        (s.Pop).2.1 ∉ (s.Pop).1.set) ∧
    (∀ s : ResolvingSet T U, s.set ≠ [] → s.Wf →
      (s.Pop).2.2 = true ∧ (∃ k, (k, (s.Pop).2.1) ∈ s.set) ∧
        (s.Pop).1.Len = s.Len - 1 ∧
        mapGet (s.Pop).1.set (s.keyGetter (s.Pop).2.1) = none) ∧
    (∀ s : PrioritySet T U, s.set ≠ [] → s.Wf →
      (s.Pop).2.2 = true ∧ (∃ k, (k, (s.Pop).2.1) ∈ s.set) ∧
        (s.Pop).1.Len = s.Len - 1 ∧
        mapGet (s.Pop).1.set (s.keyGetter (s.Pop).2.1) = none) := by
  refine ⟨?_, ?_, ?_, ?_, ?_, ?_⟩
  · rintro ⟨l⟩ h
    cases h
    rfl
  · rintro ⟨l, kg0, r0⟩ h
    cases h
    rfl
  · rintro ⟨l, kg0, c0⟩ h
    cases h
    rfl
  · rintro ⟨l⟩ hne hnd
    rcases l with _ | ⟨e, rest⟩
    · exact absurd rfl hne
    · have he : e ∉ rest := (List.nodup_cons.mp hnd).1
      have hf : (e :: rest).filter (fun x => decide (x ≠ e)) = rest := by
        rw [List.filter_cons, if_neg (by simp)]
        rw [List.filter_eq_self]
        intro x hx
        simp only [decide_eq_true_iff]
        intro hxe
        rw [hxe] at hx
        exact he hx
      refine ⟨rfl, List.mem_cons_self _ _, ?_, ?_⟩
      · show ((⟨e :: rest⟩ : SimpleSet T).Remove [e]).set.length = (e :: rest).length - 1
        show ((e :: rest).filter (fun x => decide (x ≠ e))).length = (e :: rest).length - 1
        rw [hf]
        simp
      · show e ∉ ((⟨e :: rest⟩ : SimpleSet T).Remove [e]).set
        show e ∉ (e :: rest).filter (fun x => decide (x ≠ e))
        rw [hf]
        exact he
  · rintro ⟨l, kg0, r0⟩ hne hw
    rcases l with _ | ⟨⟨k, e⟩, rest⟩
    · exact absurd rfl hne
    · have hke : kg0 e = k := hw.2 (k, e) (List.mem_cons_self _ _)
      have hknr : k ∉ mapKeys rest := ((keysNodup_cons_iff (k, e) rest).mp hw.1).1
      have herase : mapErase ((k, e) :: rest) (kg0 e) = rest := by
        rw [hke]
        show (if k = k then mapErase rest k else (k, e) :: mapErase rest k) = rest
        rw [if_pos rfl, mapErase_of_not_mem hknr]
      refine ⟨rfl, ⟨k, List.mem_cons_self _ _⟩, ?_, ?_⟩
      · show (mapErase ((k, e) :: rest) (kg0 e)).length = ((k, e) :: rest).length - 1
        rw [herase]
        simp
      · show mapGet (mapErase ((k, e) :: rest) (kg0 e)) (kg0 e) = none
        rw [herase, hke, mapGet_eq_none_iff]
        exact hknr
  · rintro ⟨l, kg0, c0⟩ hne hw
    rcases l with _ | ⟨⟨k, e⟩, rest⟩
    · exact absurd rfl hne
    · have hke : kg0 e = k := hw.2 (k, e) (List.mem_cons_self _ _)
      have hknr : k ∉ mapKeys rest := ((keysNodup_cons_iff (k, e) rest).mp hw.1).1
      have herase : mapErase ((k, e) :: rest) (kg0 e) = rest := by
        rw [hke]
        show (if k = k then mapErase rest k else (k, e) :: mapErase rest k) = rest
        rw [if_pos rfl, mapErase_of_not_mem hknr]
      refine ⟨rfl, ⟨k, List.mem_cons_self _ _⟩, ?_, ?_⟩
      · show (mapErase ((k, e) :: rest) (kg0 e)).length = ((k, e) :: rest).length - 1
        rw [herase]
        simp
      · show mapGet (mapErase ((k, e) :: rest) (kg0 e)) (kg0 e) = none
        rw [herase, hke, mapGet_eq_none_iff]
        exact hknr

/-- Claim C8 witness: the non-empty simple case applied to the set holding
1 and 2. -/
theorem C8_pop_witness :
    ((⟨[1, 2]⟩ : SimpleSet Nat).Pop).2.2 = true ∧
      ((⟨[1, 2]⟩ : SimpleSet Nat).Pop).1.Len = 1 := by
  have h := (C8_pop (T := Nat) (U := Nat)).2.2.2.1 ⟨[1, 2]⟩ (by decide) (by decide)
  exact ⟨h.1, h.2.2.1⟩

/-- Claim C9 counterexample: IsProperSubset applied to a simple set and a
priority set of equal length - operands of different concrete variants -
returns false normally instead of failing with TypeMismatch, because the Go
short-circuit s.Len() < other.Len() && s.IsSubset(other) skips the type
assertion. -/
theorem C9_counterexample :
    SetDyn.sameVariant (SetDyn.dynSimple (U := Nat) exSimpleOne)
        (SetDyn.dynPriority exPrioOne) = false ∧
      SetDyn.dynIsProperSubset (SetDyn.dynSimple (U := Nat) exSimpleOne)
        (SetDyn.dynPriority exPrioOne) = Except.ok false := by
  exact ⟨rfl, rfl⟩

/-- Claim C9 (amended): Diff, SymmetricDiff, Union, Intersect, Equal,
IsSubset and IsSuperset fail with TypeMismatch exactly when the two operands
are not the same concrete variant, and never fail on same-variant operands.
IsProperSubset and IsProperSuperset evaluate their cardinality test before
the engine-level type assertion, so on mismatched operands they fail only
when that precondition holds (receiver strictly smaller, respectively
strictly larger), except that a synchronized receiver's IsProperSubset
asserts its operand first and always fails on a non-synchronized operand. -/
theorem C9_type_dispatch [DecidableEq T] [DecidableEq U] :
    ∀ a b : SetDyn T U,
      exceptOk (SetDyn.dynDiff a b) = SetDyn.sameVariant a b ∧
      exceptOk (SetDyn.dynSymmetricDiff a b) = SetDyn.sameVariant a b ∧
      exceptOk (SetDyn.dynUnion a b) = SetDyn.sameVariant a b ∧
      exceptOk (SetDyn.dynIntersect a b) = SetDyn.sameVariant a b ∧
      exceptOk (SetDyn.dynEqual a b) = SetDyn.sameVariant a b ∧
      exceptOk (SetDyn.dynIsSubset a b) = SetDyn.sameVariant a b ∧
      exceptOk (SetDyn.dynIsSuperset a b) = SetDyn.sameVariant a b ∧
      exceptOk (SetDyn.dynIsProperSubset a b) = SetDyn.properSubsetOk a b ∧
      exceptOk (SetDyn.dynIsProperSuperset a b) = SetDyn.properSupersetOk a b :=
  fun a b =>
    ⟨SetDyn.dynDiff_ok a b, SetDyn.dynSymmetricDiff_ok a b, SetDyn.dynUnion_ok a b,
      SetDyn.dynIntersect_ok a b, SetDyn.dynEqual_ok a b, SetDyn.dynIsSubset_ok a b,
      SetDyn.dynIsSuperset_ok a b, SetDyn.dynIsProperSubset_ok a b,
      SetDyn.dynIsProperSuperset_ok a b⟩

/-- Claim C2: the safeSet wrapper's Clone, Diff, SymmetricDiff and Intersect
wrap the engine-produced result in a new safeSet, but Union returns the bare
engine result without wrapping it (safe_resolving_set.go, Union), so Union
of two synchronized sets is NOT a synchronized set - evaluated here on two
concrete synchronized resolving sets. -/
theorem C2_union_unwrapped :
    SetDyn.dynUnion (SetDyn.dynSafe (SetDyn.dynResolving exResA))
        (SetDyn.dynSafe (SetDyn.dynResolving exResB))
      = Except.ok (SetDyn.dynResolving (exResA.Union exResB)) ∧
    SetDyn.isSafe (SetDyn.dynResolving (exResA.Union exResB)) = false ∧
    (∃ r, SetDyn.dynDiff (SetDyn.dynSafe (SetDyn.dynResolving exResA))
        (SetDyn.dynSafe (SetDyn.dynResolving exResB)) = Except.ok r ∧
      SetDyn.isSafe r = true) ∧
    (∃ r, SetDyn.dynSymmetricDiff (SetDyn.dynSafe (SetDyn.dynResolving exResA))
        (SetDyn.dynSafe (SetDyn.dynResolving exResB)) = Except.ok r ∧
      SetDyn.isSafe r = true) ∧
    (∃ r, SetDyn.dynIntersect (SetDyn.dynSafe (SetDyn.dynResolving exResA))
        (SetDyn.dynSafe (SetDyn.dynResolving exResB)) = Except.ok r ∧
      SetDyn.isSafe r = true) ∧
    SetDyn.isSafe (SetDyn.dynClone (SetDyn.dynSafe (SetDyn.dynResolving exResA))) = true := by
  exact ⟨rfl, rfl, ⟨_, rfl, rfl⟩, ⟨_, rfl, rfl⟩, ⟨_, rfl, rfl⟩, rfl⟩

end Claims

end Goset
